import Mathlib

/-!
Verification of the profiling2 decoder pipeline against its specification.

Each Rust function of the core decoder is shallowly embedded as an
executable Lean definition; machine integers become `Nat`/`Int` with
explicit `% 2^w` where wrapping matters, fallible code returns explicit
result types, and `panic!`-style aborts (assertion failures, out-of-bounds
indexing, `unimplemented!`, `unreachable!`) become a distinguished
`panic` outcome.  IEEE-754 doubles are kept abstract: every definition
that touches floats is parameterised by a type `F` together with the
operations the code uses on it (`FloatOps`), so no theorem depends on
floating-point arithmetic.
-/

namespace Profiling2

/-! ## Print decoder — port of src/site/wasm/src/parser/decompress.rs -/

/-- Outcome of a fallible computation that may also abort the process:
`panic` models Rust panics (failed `assert!`, slice-index out of bounds,
integer-underflow in `split_at`), `err b` models
`Err(DecompressionError::InvalidPrintByte(b))`. -/
inductive DRes (α : Type) where
  | panic : DRes α
  | err (badByte : Nat) : DRes α
  | ok (a : α) : DRes α
deriving DecidableEq

/-- PRINT_DECODING_TABLE from decompress.rs: a 123-entry array mapping a
printable byte to its 6-bit value; entry 0 marks an invalid byte. -/
def PRINT_DECODING_TABLE : List Nat := [
  0, 0, 0, 0, 0, 0, 0, 0, 0, 0, 0, 0, 0, 0, 0, 0, 0, 0, 0, 0, 0, 0, 0, 0, 0, 0, 0, 0, 0, 0, 0, 0,
  0, 0, 0, 0, 0, 0, 0, 0, 62, 63, 0, 0, 0, 0, 0, 0, 52, 53, 54, 55, 56, 57, 58, 59, 60, 61, 0, 0,
  0, 0, 0, 0, 0, 26, 27, 28, 29, 30, 31, 32, 33, 34, 35, 36, 37, 38, 39, 40, 41, 42, 43, 44, 45,
  46, 47, 48, 49, 50, 51, 0, 0, 0, 0, 0, 0, 0, 1, 2, 3, 4, 5, 6, 7, 8, 9, 10, 11, 12, 13, 14, 15,
  16, 17, 18, 19, 20, 21, 22, 23, 24, 25]

/-- SPECIAL_ZERO: code 97 (`'a'`) is ACTUALLY 0. -/
def SPECIAL_ZERO : Nat := 97

/-- Port of `decode_byte`.  Rust indexes `PRINT_DECODING_TABLE[b as usize]`
on a 123-entry array, so any byte `b ≥ 123` is an out-of-bounds panic,
modelled here by the `List.get?` miss case. -/
def decode_byte (b : Nat) : DRes Nat :=
  if b = SPECIAL_ZERO then .ok 0
  else
    match PRINT_DECODING_TABLE.get? b with
    | none => .panic
    | some 0 => .err b
    | some v => .ok v

/-- Sequencing of fallible steps; Rust's `?` operator. -/
def DRes.bind {α β : Type} : DRes α → (α → DRes β) → DRes β
  | .panic, _ => .panic
  | .err b, _ => .err b
  | .ok a, f => f a

/-- The 4-character group loop of `decode_for_print`: each chunk of four
decoded 6-bit digits is packed little-endian into `cache` and emitted as
three bytes.  A chunk shorter than 4 would index out of bounds in Rust
(`x[1]`…), hence `panic`; the `assert!` in the caller makes that
unreachable. -/
def groupLoop : List Nat → DRes (List Nat)
  | [] => .ok []
  | x0 :: x1 :: x2 :: x3 :: rest =>
    (decode_byte x0).bind fun d0 =>
    (decode_byte x1).bind fun d1 =>
    (decode_byte x2).bind fun d2 =>
    (decode_byte x3).bind fun d3 =>
      let cache := d0 + d1 * 64 + d2 * 4096 + d3 * 262144
      let b1 := cache % 256
      let cache2 := (cache - b1) / 256
      let b2 := cache2 % 256
      let b3 := (cache2 - b2) / 256
      (groupLoop rest).bind fun out => .ok (b1 :: b2 :: b3 :: out)
  | _ => .panic

/-- The tail accumulation loop of `decode_for_print`: each remaining
character contributes 6 bits to a little-endian bit cache. -/
def minorLoop (bs : List Nat) (cache bitlen : Nat) : DRes (Nat × Nat) :=
  match bs with
  | [] => .ok (cache, bitlen)
  | b :: rest =>
    (decode_byte b).bind fun v => minorLoop rest (cache + v * 2 ^ bitlen) (bitlen + 6)

/-- The tail emission loop: while at least 8 bits are cached, emit the low
byte and shift right by 8; residual bits below 8 are discarded. -/
def emitLoop (cache bitlen : Nat) : List Nat :=
  if 8 ≤ bitlen then
    cache % 256 :: emitLoop ((cache - cache % 256) / 256) (bitlen - 8)
  else []
termination_by bitlen

/-- Port of `decode_for_print` (decompress.rs).  The input is the byte
sequence of the `&str` argument.  `bytes.split_at(bytes.len() - 4)`
panics when the length is below 4 (usize underflow), and
`assert!(major.len() % 4 == 0)` panics when the length is not a multiple
of 4. -/
def decode_for_print (input : List Nat) : DRes (List Nat) :=
  if input.length < 4 then .panic
  else
    let major := input.take (input.length - 4)
    let minor := input.drop (input.length - 4)
    if major.length % 4 ≠ 0 then .panic
    else
      (groupLoop major).bind fun groupOut =>
      (minorLoop minor 0 0).bind fun p => .ok (groupOut ++ emitLoop p.1 p.2)

/-! Specification-side reformulation of the two phases, written from the
spec's words (§4.3) for comparison with the port above. -/

/-- Total decoded 6-bit digit of a byte assumed valid (97 aliases 0). -/
def decodeVal (b : Nat) : Nat :=
  if b = SPECIAL_ZERO then 0 else PRINT_DECODING_TABLE.getD b 0

/-- A byte is a valid printable character: either the special alias 97 or
a byte whose table entry is nonzero (which requires it to be in range). -/
def validPrintByte (b : Nat) : Prop :=
  b = SPECIAL_ZERO ∨ (b < 123 ∧ PRINT_DECODING_TABLE.getD b 0 ≠ 0)

instance (b : Nat) : Decidable (validPrintByte b) := by
  unfold validPrintByte; infer_instance

/-- Spec group phase: groups of 4 characters pack 24 bits little-endian
across base-64 digits; emit `cache mod 256`, `(cache/256) mod 256`,
`cache/65536`. -/
def specGroupPhase : List Nat → List Nat
  | c0 :: c1 :: c2 :: c3 :: rest =>
    let cache := decodeVal c0 + 64 * decodeVal c1 + 4096 * decodeVal c2 + 262144 * decodeVal c3
    cache % 256 :: cache / 256 % 256 :: cache / 65536 :: specGroupPhase rest
  | _ => []

/-- Spec tail emission: whenever the cache holds at least 8 bits, emit the
low byte and shift right by 8. -/
def specTailEmit (cache bitlen : Nat) : List Nat :=
  if 8 ≤ bitlen then cache % 256 :: specTailEmit (cache / 256) (bitlen - 8) else []
termination_by bitlen

/-- Little-endian 6-bit accumulation of the tail characters, starting at
bit position `k`. -/
def specTailCache : List Nat → Nat → Nat
  | [], _ => 0
  | c :: rest, k => decodeVal c * 2 ^ k + specTailCache rest (k + 6)

/-- Spec tail phase: remaining characters contribute 6 bits each into a
little-endian bit cache, then bytes are emitted while ≥ 8 bits are held. -/
def specTailPhase (cs : List Nat) : List Nat :=
  specTailEmit (specTailCache cs 0) (6 * cs.length)

theorem sub_mod_div_256 (n : Nat) : (n - n % 256) / 256 = n / 256 := by
  have h := Nat.div_add_mod n 256
  have : n - n % 256 = 256 * (n / 256) := by omega
  rw [this, Nat.mul_div_cancel_left _ (by norm_num)]

theorem PRINT_DECODING_TABLE_length : PRINT_DECODING_TABLE.length = 123 := by decide

theorem decode_byte_inbounds (b : Nat) (h : b < 123) :
    decode_byte b =
      (if decodeVal b = 0 ∧ b ≠ SPECIAL_ZERO then .err b else .ok (decodeVal b)) := by
  revert h; revert b; decide

theorem decode_byte_valid {b : Nat} (h : validPrintByte b) :
    decode_byte b = .ok (decodeVal b) := by
  rcases h with h | ⟨hlt, hne⟩
  · subst h; decide
  · rw [decode_byte_inbounds b hlt, if_neg]
    intro hcontra
    exact hne (by simpa [decodeVal, hcontra.2] using hcontra.1)

theorem decode_byte_inbounds_no_panic {b : Nat} (h : b < 123) :
    decode_byte b ≠ .panic := by
  rw [decode_byte_inbounds b h]
  split <;> simp

theorem decode_byte_oob_panic {b : Nat} (h : 123 ≤ b) : decode_byte b = .panic := by
  have h97 : b ≠ SPECIAL_ZERO := by unfold SPECIAL_ZERO; omega
  have hg : PRINT_DECODING_TABLE.get? b = none :=
    List.get?_eq_none.mpr (by rw [PRINT_DECODING_TABLE_length]; omega)
  rw [decode_byte, if_neg h97, hg]

theorem groupLoop_valid_aux :
    ∀ (n : Nat) (l : List Nat), l.length ≤ n → l.length % 4 = 0 →
      (∀ b ∈ l, validPrintByte b) → groupLoop l = .ok (specGroupPhase l) := by
  intro n
  induction n with
  | zero =>
    intro l hl _ _
    match l with
    | [] => simp [groupLoop, specGroupPhase]
  | succ n ih =>
    intro l hl hmod hvalid
    match l with
    | [] => simp [groupLoop, specGroupPhase]
    | [a] => simp at hmod
    | [a, b] => simp at hmod
    | [a, b, c] => simp at hmod
    | x0 :: x1 :: x2 :: x3 :: rest =>
      have h0 := decode_byte_valid (hvalid x0 (by simp))
      have h1 := decode_byte_valid (hvalid x1 (by simp))
      have h2 := decode_byte_valid (hvalid x2 (by simp))
      have h3 := decode_byte_valid (hvalid x3 (by simp))
      have hrest := ih rest (by simp at hl ⊢; omega) (by simp at hmod ⊢; omega)
        (fun b hb => hvalid b (by simp [hb]))
      have hc : decodeVal x0 + decodeVal x1 * 64 + decodeVal x2 * 4096 +
          decodeVal x3 * 262144 =
          decodeVal x0 + 64 * decodeVal x1 + 4096 * decodeVal x2 +
          262144 * decodeVal x3 := by ring
      simp only [groupLoop, h0, h1, h2, h3, hrest, DRes.bind, specGroupPhase]
      simp only [hc, sub_mod_div_256, Nat.div_div_eq_div_mul]

theorem groupLoop_valid (l : List Nat) (hmod : l.length % 4 = 0)
    (hvalid : ∀ b ∈ l, validPrintByte b) :
    groupLoop l = .ok (specGroupPhase l) :=
  groupLoop_valid_aux l.length l (Nat.le_refl _) hmod hvalid

theorem groupLoop_no_panic_aux :
    ∀ (n : Nat) (l : List Nat), l.length ≤ n → l.length % 4 = 0 →
      (∀ b ∈ l, b < 123) → groupLoop l ≠ .panic := by
  intro n
  induction n with
  | zero =>
    intro l hl _ _
    match l with
    | [] => simp [groupLoop]
  | succ n ih =>
    intro l hl hmod hlt
    match l with
    | [] => simp [groupLoop]
    | [a] => simp at hmod
    | [a, b] => simp at hmod
    | [a, b, c] => simp at hmod
    | x0 :: x1 :: x2 :: x3 :: rest =>
      have h0 := decode_byte_inbounds_no_panic (hlt x0 (by simp))
      have h1 := decode_byte_inbounds_no_panic (hlt x1 (by simp))
      have h2 := decode_byte_inbounds_no_panic (hlt x2 (by simp))
      have h3 := decode_byte_inbounds_no_panic (hlt x3 (by simp))
      have hrest := ih rest (by simp at hl ⊢; omega) (by simp at hmod ⊢; omega)
        (fun b hb => hlt b (by simp [hb]))
      rw [groupLoop]
      rcases e0 : decode_byte x0 with _ | b | d0 <;>
        [exact absurd e0 h0; simp [DRes.bind]; skip]
      rcases e1 : decode_byte x1 with _ | b | d1 <;>
        [exact absurd e1 h1; simp [DRes.bind]; skip]
      rcases e2 : decode_byte x2 with _ | b | d2 <;>
        [exact absurd e2 h2; simp [DRes.bind]; skip]
      rcases e3 : decode_byte x3 with _ | b | d3 <;>
        [exact absurd e3 h3; simp [DRes.bind]; skip]
      rcases er : groupLoop rest with _ | b | out <;>
        [exact absurd er hrest; simp [DRes.bind]; simp [DRes.bind]]

theorem groupLoop_no_panic (l : List Nat) (hmod : l.length % 4 = 0)
    (hlt : ∀ b ∈ l, b < 123) : groupLoop l ≠ .panic :=
  groupLoop_no_panic_aux l.length l (Nat.le_refl _) hmod hlt

theorem minorLoop_valid :
    ∀ (l : List Nat) (cache bitlen : Nat), (∀ b ∈ l, validPrintByte b) →
      minorLoop l cache bitlen =
        .ok (cache + specTailCache l bitlen, bitlen + 6 * l.length) := by
  intro l
  induction l with
  | nil => intro cache bitlen _; simp [minorLoop, specTailCache]
  | cons b rest ih =>
    intro cache bitlen hvalid
    rw [minorLoop, decode_byte_valid (hvalid b (by simp))]
    simp only [DRes.bind]
    rw [ih _ _ (fun c hc => hvalid c (by simp [hc]))]
    simp only [specTailCache, List.length_cons, DRes.ok.injEq, Prod.mk.injEq]
    constructor <;> ring

theorem minorLoop_no_panic :
    ∀ (l : List Nat) (cache bitlen : Nat), (∀ b ∈ l, b < 123) →
      minorLoop l cache bitlen ≠ .panic := by
  intro l
  induction l with
  | nil => intro cache bitlen _; simp [minorLoop]
  | cons b rest ih =>
    intro cache bitlen hlt
    rw [minorLoop]
    rcases eb : decode_byte b with _ | c | v
    · exact absurd eb (decode_byte_inbounds_no_panic (hlt b (by simp)))
    · simp [DRes.bind]
    · simp only [DRes.bind]
      exact ih _ _ (fun c hc => hlt c (by simp [hc]))

theorem emitLoop_eq_specTailEmit :
    ∀ (bitlen cache : Nat), emitLoop cache bitlen = specTailEmit cache bitlen := by
  intro bitlen
  induction bitlen using Nat.strong_induction_on with
  | _ bitlen ih =>
    intro cache
    rw [emitLoop, specTailEmit]
    by_cases h : 8 ≤ bitlen
    · rw [if_pos h, if_pos h, sub_mod_div_256, ih (bitlen - 8) (by omega)]
    · rw [if_neg h, if_neg h]

theorem specGroupPhase_length_aux :
    ∀ (n : Nat) (l : List Nat), l.length ≤ n → l.length % 4 = 0 →
      (specGroupPhase l).length = 3 * (l.length / 4) := by
  intro n
  induction n with
  | zero =>
    intro l hl _
    match l with
    | [] => simp [specGroupPhase]
  | succ n ih =>
    intro l hl hmod
    match l with
    | [] => simp [specGroupPhase]
    | [a] => simp at hmod
    | [a, b] => simp at hmod
    | [a, b, c] => simp at hmod
    | x0 :: x1 :: x2 :: x3 :: rest =>
      have hrest := ih rest (by simp at hl ⊢; omega) (by simp at hmod ⊢; omega)
      rw [specGroupPhase]
      simp only [List.length_cons, hrest]
      omega

theorem specGroupPhase_length (l : List Nat) (hmod : l.length % 4 = 0) :
    (specGroupPhase l).length = 3 * (l.length / 4) :=
  specGroupPhase_length_aux l.length l (Nat.le_refl _) hmod

theorem specTailEmit_len24 (cache : Nat) : (specTailEmit cache 24).length = 3 := by
  rw [specTailEmit, if_pos (by norm_num), specTailEmit, if_pos (by norm_num),
    specTailEmit, if_pos (by norm_num), specTailEmit, if_neg (by norm_num)]
  rfl

/-- Claim C2: for every input to `decode_for_print` whose length `L` is at
least 4 and a multiple of 4 and whose bytes all decode to valid 6-bit
values, the first `L − 4` characters are consumed in groups of 4 as
`cache = d0 + 64·d1 + 4096·d2 + 262144·d3`, emitting `cache mod 256`,
`(cache/256) mod 256`, `cache/65536`; the last 4 characters are consumed
6 bits each into a little-endian bit cache, emitting one byte whenever at
least 8 bits are held and discarding residual bits; the output has
exactly `3·L/4` bytes. -/
theorem decode_for_print_spec (input : List Nat)
    (h4 : 4 ≤ input.length) (hmod : input.length % 4 = 0)
    (hvalid : ∀ b ∈ input, validPrintByte b) :
    decode_for_print input =
      .ok (specGroupPhase (input.take (input.length - 4)) ++
        specTailPhase (input.drop (input.length - 4))) ∧
    (specGroupPhase (input.take (input.length - 4)) ++
        specTailPhase (input.drop (input.length - 4))).length =
      3 * (input.length / 4) := by
  have hmajlen : (input.take (input.length - 4)).length = input.length - 4 := by
    simp only [List.length_take]; omega
  have hminlen : (input.drop (input.length - 4)).length = 4 := by
    simp only [List.length_drop]; omega
  have hmajmod : (input.take (input.length - 4)).length % 4 = 0 := by
    rw [hmajlen]; omega
  have hmajvalid : ∀ b ∈ input.take (input.length - 4), validPrintByte b :=
    fun b hb => hvalid b (List.mem_of_mem_take hb)
  have hminvalid : ∀ b ∈ input.drop (input.length - 4), validPrintByte b :=
    fun b hb => hvalid b (List.mem_of_mem_drop hb)
  constructor
  · rw [decode_for_print, if_neg (by omega)]
    simp only [hmajmod, ne_eq, not_true_eq_false, if_false]
    rw [groupLoop_valid _ hmajmod hmajvalid, minorLoop_valid _ 0 0 hminvalid]
    simp only [DRes.bind, emitLoop_eq_specTailEmit, specTailPhase, Nat.zero_add]
  · rw [List.length_append, specGroupPhase_length _ hmajmod, hmajlen,
      specTailPhase, hminlen]
    show _ + (specTailEmit _ 24).length = _
    rw [specTailEmit_len24]
    omega

/-- Witness for C2 at the concrete input "abcd" = [97, 98, 99, 100]. -/
theorem decode_for_print_spec_witness :
    decode_for_print [97, 98, 99, 100] =
      .ok (specGroupPhase ([97, 98, 99, 100].take 0) ++
        specTailPhase ([97, 98, 99, 100].drop 0)) ∧
    (specGroupPhase ([97, 98, 99, 100].take 0) ++
        specTailPhase ([97, 98, 99, 100].drop 0)).length = 3 * 1 :=
  decode_for_print_spec [97, 98, 99, 100] (by decide) (by decide) (by decide)

/-- Claim C9: `decode_for_print` is total only under the precondition that
the input length is at least 4, a multiple of 4, and every byte is below
123: shorter inputs and lengths not divisible by 4 panic, any byte ≥ 123
panics with an out-of-bounds index into the 123-entry decoding table
(rather than returning `InvalidPrintByte`), and under the precondition no
panic is possible. -/
theorem decode_for_print_totality :
    (∀ input : List Nat, input.length < 4 → decode_for_print input = .panic) ∧
    (∀ input : List Nat, input.length % 4 ≠ 0 → decode_for_print input = .panic) ∧
    (∀ b : Nat, 123 ≤ b → decode_byte b = .panic) ∧
    (∀ input : List Nat, 4 ≤ input.length → input.length % 4 = 0 →
      (∀ b ∈ input, b < 123) → decode_for_print input ≠ .panic) := by
  refine ⟨?_, ?_, ?_, ?_⟩
  · intro input h
    rw [decode_for_print, if_pos h]
  · intro input h
    by_cases h4 : input.length < 4
    · rw [decode_for_print, if_pos h4]
    · rw [decode_for_print, if_neg h4]
      have : (input.take (input.length - 4)).length % 4 ≠ 0 := by
        simp only [List.length_take]
        omega
      simp only [this, ne_eq, not_false_eq_true, if_true]
  · intro b h
    exact decode_byte_oob_panic h
  · intro input h4 hmod hlt
    rw [decode_for_print, if_neg (by omega)]
    have hmajmod : (input.take (input.length - 4)).length % 4 = 0 := by
      simp only [List.length_take]; omega
    simp only [hmajmod, ne_eq, not_true_eq_false, if_false]
    have hg := groupLoop_no_panic (input.take (input.length - 4)) hmajmod
      (fun b hb => hlt b (List.mem_of_mem_take hb))
    have hm := minorLoop_no_panic (input.drop (input.length - 4)) 0 0
      (fun b hb => hlt b (List.mem_of_mem_drop hb))
    rcases eg : groupLoop (input.take (input.length - 4)) with _ | b | out
    · exact absurd eg hg
    · simp [DRes.bind]
    · rcases em : minorLoop (input.drop (input.length - 4)) 0 0 with _ | b | p
      · exact absurd em hm
      · simp [DRes.bind]
      · simp [DRes.bind]

/-- Witness for C9 at concrete inputs. -/
theorem decode_for_print_totality_witness :
    decode_for_print [97] = .panic ∧
    decode_for_print [97, 97, 97, 97, 97] = .panic ∧
    decode_byte 123 = .panic ∧
    decode_for_print [97, 98, 99, 100] ≠ .panic :=
  ⟨decode_for_print_totality.1 [97] (by decide),
   decode_for_print_totality.2.1 [97, 97, 97, 97, 97] (by decide),
   decode_for_print_totality.2.2.1 123 (by decide),
   decode_for_print_totality.2.2.2 [97, 98, 99, 100] (by decide) (by decide) (by decide)⟩

/-! ## Value model — serde-savedvariables `Value`/`Table` (crates/serde-savedvariables/src/lib.rs)

IEEE-754 doubles stay abstract: `FloatOps` collects the operations the
decoder performs on `f64` values. -/

/-- Abstract float operations: `ofBits` is `f64::from_bits` of a big-endian
read (`be_f64`), `ofLit` is the (total) conversion nom's `double` applies
to a recognized float literal, `ofString` is `str::parse::<f64>` used by
`float_str`, `neg` is unary minus, `render` is the `Display`
implementation used by `to_string()`, and `ofInt` is the `as f64` cast. -/
structure FloatOps (F : Type) where
  ofBits : Nat → F
  ofLit : String → F
  ofString : String → Option F
  neg : F → F
  render : F → String
  ofInt : Int → F

mutual

/-- serde-savedvariables `Value`. -/
inductive Value (F : Type) where
  | nil : Value F
  | bool (b : Bool) : Value F
  | int (n : Int) : Value F
  | float (f : F) : Value F
  | str (s : String) : Value F
  | table (t : TableV F) : Value F

/-- serde-savedvariables `Table` (with the `FloatArray` specialization). -/
inductive TableV (F : Type) where
  | empty : TableV F
  | named (entries : List (String × Value F)) : TableV F
  | array (xs : List (Value F)) : TableV F
  | floatArray (xs : List F) : TableV F
  | mixed (arrayPart : List (Value F)) (namedPart : List (String × Value F)) : TableV F

end

/-- `HashMap::insert` on the association-list model of a hash map: replace
an existing binding for the key, otherwise append. -/
def insertAssoc {α : Type} (m : List (String × α)) (k : String) (v : α) :
    List (String × α) :=
  if m.any (fun p => p.1 = k) then
    m.map (fun p => if p.1 = k then (k, v) else p)
  else m ++ [(k, v)]

/-! ## UTF-8 validation — model of `core::str::from_utf8` -/

/-- A UTF-8 continuation byte. -/
def utf8Cont (b : Nat) : Prop := 0x80 ≤ b ∧ b ≤ 0xBF

instance (b : Nat) : Decidable (utf8Cont b) := by unfold utf8Cont; infer_instance

/-- Strict UTF-8 decoding of a byte sequence into characters, with the
same rejection of overlong encodings, surrogates and values above
U+10FFFF as Rust's `core::str::from_utf8`. -/
def utf8Chars : List Nat → Option (List Char)
  | [] => some []
  | b :: rest =>
    if b < 0x80 then (utf8Chars rest).map (Char.ofNat b :: ·)
    else if 0xC2 ≤ b ∧ b ≤ 0xDF then
      match rest with
      | c1 :: rest2 =>
        if utf8Cont c1 then
          (utf8Chars rest2).map (Char.ofNat ((b - 0xC0) * 64 + (c1 - 0x80)) :: ·)
        else none
      | _ => none
    else if 0xE0 ≤ b ∧ b ≤ 0xEF then
      match rest with
      | c1 :: c2 :: rest2 =>
        if (if b = 0xE0 then 0xA0 else 0x80) ≤ c1 ∧
            c1 ≤ (if b = 0xED then 0x9F else 0xBF) ∧ utf8Cont c2 then
          (utf8Chars rest2).map
            (Char.ofNat ((b - 0xE0) * 4096 + (c1 - 0x80) * 64 + (c2 - 0x80)) :: ·)
        else none
      | _ => none
    else if 0xF0 ≤ b ∧ b ≤ 0xF4 then
      match rest with
      | c1 :: c2 :: c3 :: rest2 =>
        if (if b = 0xF0 then 0x90 else 0x80) ≤ c1 ∧
            c1 ≤ (if b = 0xF4 then 0x8F else 0xBF) ∧ utf8Cont c2 ∧ utf8Cont c3 then
          (utf8Chars rest2).map
            (Char.ofNat ((b - 0xF0) * 262144 + (c1 - 0x80) * 4096 +
              (c2 - 0x80) * 64 + (c3 - 0x80)) :: ·)
        else none
      | _ => none
    else none

/-- Model of `core::str::from_utf8`. -/
def decodeUtf8 (bs : List Nat) : Option String :=
  (utf8Chars bs).map (fun cs => String.mk cs)

/-! ## Binary deserializer — port of crates/serde-libserialize/src/lib.rs

The Rust parser couples a nom input position with an `Rc`-shared pair of
interior-mutable back-reference tables; clones of the state handle alias
one another, so the decode is sequential mutation of one table pair.  The
embedding threads that pair (`RefState`) explicitly.  `alt` restarts the
failed branch's state; this is observationally equal to the source
because every reachable recoverable error occurs before any table
mutation (mutations happen only as the final step of a production that
then succeeds, and `cut` makes all later errors fatal). -/

/-- The two append-only back-reference tables of `State`. -/
structure RefState (F : Type) where
  strings : List String
  tables : List (TableV F)

/-- Decoder error kinds (`DeserializationError` and nom error classes). -/
inductive DeserErr where
  | parseFail : DeserErr
  | missingRef (k : Nat) : DeserErr
  | utf8 : DeserErr
  | floatStr : DeserErr
  | tableKey : DeserErr
deriving DecidableEq

/-- Result of running a parser: `ok` with the updated table state,
remaining input and value; `recErr` is nom's recoverable `Err::Error`,
`fatal` is `Err::Failure` (produced by `cut` and by the back-reference
miss), `panic` models `unimplemented!`, and `nofuel` is the embedding's
fuel-exhaustion artifact (unreachable when the fuel exceeds the input
length, since every recursion step first consumes a header byte). -/
inductive PR (F : Type) (α : Type) where
  | ok (s : RefState F) (rest : List Nat) (a : α) : PR F α
  | recErr (e : DeserErr) : PR F α
  | fatal (e : DeserErr) : PR F α
  | panic : PR F α
  | nofuel : PR F α

/-- A nom parser over the shared-state input. -/
def ParserM (F : Type) (α : Type) : Type :=
  RefState F → List Nat → PR F α

/-- Parser sequencing (nom's `?`/`flat_map`/`preceded`). -/
def pbind {F α β : Type} (p : ParserM F α) (f : α → ParserM F β) : ParserM F β :=
  fun s i =>
    match p s i with
    | .ok s2 r a => f a s2 r
    | .recErr e => .recErr e
    | .fatal e => .fatal e
    | .panic => .panic
    | .nofuel => .nofuel

/-- nom's `map`. -/
def pmap {F α β : Type} (p : ParserM F α) (f : α → β) : ParserM F β :=
  fun s i =>
    match p s i with
    | .ok s2 r a => .ok s2 r (f a)
    | .recErr e => .recErr e
    | .fatal e => .fatal e
    | .panic => .panic
    | .nofuel => .nofuel

/-- A parser returning a value without reading input. -/
def pureP {F α : Type} (a : α) : ParserM F α := fun s i => .ok s i a

/-- nom's `alt` for two branches: the second runs only after a
recoverable error of the first. -/
def alt2 {F α : Type} (p q : ParserM F α) : ParserM F α :=
  fun s i =>
    match p s i with
    | .ok s2 r a => .ok s2 r a
    | .recErr _ => q s i
    | .fatal e => .fatal e
    | .panic => .panic
    | .nofuel => .nofuel

/-- nom's `cut`: make recoverable errors fatal. -/
def cutP {F α : Type} (p : ParserM F α) : ParserM F α :=
  fun s i =>
    match p s i with
    | .ok s2 r a => .ok s2 r a
    | .recErr e => .fatal e
    | .fatal e => .fatal e
    | .panic => .panic
    | .nofuel => .nofuel

/-- Read one byte (`take(1u8)`). -/
def byteP {F : Type} : ParserM F Nat :=
  fun s i =>
    match i with
    | [] => .recErr .parseFail
    | b :: r => .ok s r b

/-- nom's `verify`. -/
def verifyP {F α : Type} (p : ParserM F α) (pred : α → Bool) : ParserM F α :=
  fun s i =>
    match p s i with
    | .ok s2 r a => if pred a then .ok s2 r a else .recErr .parseFail
    | .recErr e => .recErr e
    | .fatal e => .fatal e
    | .panic => .panic
    | .nofuel => .nofuel

/-- `version_byte`: accept a first byte `≤ DESERIALIZATION_VERSION = 2`. -/
def versionByteP {F : Type} : ParserM F Nat :=
  verifyP byteP (fun b => b ≤ 2)

/-- `tagged_byte`: succeed when the low `len` bits of the next byte equal
the tag value. -/
def taggedByte {F : Type} (tagval len : Nat) : ParserM F Nat :=
  verifyP byteP (fun b => b % 2 ^ len = tagval)

/-- `take(n)` returning the consumed bytes. -/
def takeP {F : Type} (n : Nat) : ParserM F (List Nat) :=
  fun s i =>
    if i.length < n then .recErr .parseFail else .ok s (i.drop n) (i.take n)

/-- Big-endian accumulation of bytes (`be_u8`/`be_u16`/`be_u24`/…). -/
def beNat (bs : List Nat) : Nat :=
  bs.foldl (fun acc b => acc * 256 + b) 0

/-- `int::<T>` at the count/index call sites (`u8`/`u32`/`usize` targets,
whose `FromPrimitive` conversions from 1–4-byte reads never fail).  Any
width outside {1,2,3,4,8} is `unimplemented!`. -/
def intCount {F : Type} (width : Nat) : ParserM F Nat :=
  match width with
  | 1 | 2 | 3 | 4 | 8 => pmap (takeP width) beNat
  | _ => fun _ _ => .panic

/-- `int::<i64>`: widths 1–4 always convert; width 8 fails when the
big-endian value exceeds `i64::MAX` (`FromPrimitive::from_u64`); any
other width — including the 7 used by the Int64 tags — is
`unimplemented!("{} is not a supported integer size")`. -/
def intI64 {F : Type} (width : Nat) : ParserM F Int :=
  match width with
  | 1 | 2 | 3 | 4 => pmap (takeP width) (fun bs => (beNat bs : Int))
  | 8 =>
    pbind (takeP 8) (fun bs s i =>
      if beNat bs ≤ 2 ^ 63 - 1 then .ok s i ((beNat bs : Int)) else .recErr .parseFail)
  | _ => fun _ _ => .panic

/-- `string(count)`: read `count` bytes and validate UTF-8. -/
def stringP {F : Type} (count : Nat) : ParserM F String :=
  pbind (takeP count) (fun bs s i =>
    match decodeUtf8 bs with
    | some str => .ok s i str
    | none => .recErr .utf8)

/-- `deserialize_ushort` — format `NNNN NNN1`. -/
def deserializeUshort {F : Type} : ParserM F (Value F) :=
  pmap (taggedByte 1 1) (fun b => .int ((b / 2 % 128 : Nat) : Int))

/-- `deserialize_medint` — format `LLLL S100 HHHH HHHH`: magnitude low
nibble from bits 4..7 of the tag byte, high 8 bits from the next byte,
sign from bit 3. -/
def deserializeMedint {F : Type} : ParserM F (Value F) :=
  pbind (taggedByte 4 3) (fun low =>
    pmap byteP (fun high =>
      .int (if low.testBit 3
        then -(((low / 16 % 16 + 16 * (high % 256) : Nat)) : Int)
        else (((low / 16 % 16 + 16 * (high % 256) : Nat)) : Int))))

/-- `small_object_header` — format `CCCC TT10`, yielding
`(count, type_tag)`. -/
def smallObjectHeader {F : Type} : ParserM F (Nat × Nat) :=
  pmap (taggedByte 2 2) (fun b => (b / 16 % 16, b / 4 % 4))

/-- `mixed_count` — format `AAKK` (two 2-bit fields of the small count). -/
def mixedCount (c : Nat) : Nat × Nat :=
  (c / 4 % 4, c % 4)

/-- `large_object_header` — format `TTTT T000` (all 32 five-bit tags are
valid `LargeObjectHeader` variants, so `from_u8` never fails here). -/
def largeObjectHeaderP {F : Type} : ParserM F Nat :=
  pmap (taggedByte 0 3) (fun b => b / 8 % 32)

/-- `LargeObjectHeader::bytes`, by numeric tag: note the 7-byte widths of
the Int64 tags 7 and 8. -/
def lohBytes : Nat → Nat
  | 14 | 17 | 20 | 26 | 29 | 10 | 11 => 1
  | 15 | 18 | 21 | 27 | 30 | 1 | 2 => 2
  | 16 | 19 | 22 | 28 | 31 | 3 | 4 => 3
  | 5 | 6 => 4
  | 7 | 8 => 7
  | 9 => 8
  | 23 => 1
  | 24 => 2
  | 25 => 3
  | _ => 0

/-- `float`: 8-byte big-endian IEEE-754 read. -/
def floatP {F : Type} (ops : FloatOps F) : ParserM F F :=
  pmap (takeP 8) (fun bs => ops.ofBits (beNat bs))

/-- `float_str(count)`: UTF-8 then `str::parse::<f64>`. -/
def floatStrP {F : Type} (ops : FloatOps F) (count : Nat) : ParserM F F :=
  pbind (takeP count) (fun bs s i =>
    match decodeUtf8 bs with
    | none => .recErr .utf8
    | some str =>
      match ops.ofString str with
      | none => .recErr .floatStr
      | some f => .ok s i f)

/-- `deserialize_float`: the float-array fast path accepts only a
`Float`-tagged large object; anything else is a recoverable error. -/
def deserializeFloat {F : Type} (ops : FloatOps F) : ParserM F F :=
  fun s i =>
    match largeObjectHeaderP (F := F) s i with
    | .ok s2 r tag => if tag = 9 then floatP ops s2 r else .recErr .parseFail
    | .recErr e => .recErr e
    | .fatal e => .fatal e
    | .panic => .panic
    | .nofuel => .nofuel

/-- `store_string_ref`: append every string produced by the wrapped
parser to the string reference table. -/
def storeStringRef {F : Type} (p : ParserM F (Value F)) : ParserM F (Value F) :=
  fun s i =>
    match p s i with
    | .ok s2 r v =>
      match v with
      | .str str => .ok { s2 with strings := s2.strings ++ [str] } r (.str str)
      | v => .ok s2 r v
    | .recErr e => .recErr e
    | .fatal e => .fatal e
    | .panic => .panic
    | .nofuel => .nofuel

/-- `store_table_ref`: append every table produced by the wrapped parser
to the table reference table. -/
def storeTableRef {F : Type} (p : ParserM F (Value F)) : ParserM F (Value F) :=
  fun s i =>
    match p s i with
    | .ok s2 r v =>
      match v with
      | .table t => .ok { s2 with tables := s2.tables ++ [t] } r (.table t)
      | v => .ok s2 r v
    | .recErr e => .recErr e
    | .fatal e => .fatal e
    | .panic => .panic
    | .nofuel => .nofuel

/-- `by_index.get(key - 1)` where `key : usize`; the subtraction wraps for
`key = 0` (release-profile two's-complement semantics), sending the
lookup far out of bounds. -/
def refGet {α : Type} (l : List α) (key : Nat) : Option α :=
  l.get? ((key + (2 ^ 64 - 1)) % 2 ^ 64)

/-- `string_ref(key)`: a miss is a fatal `MissingRef` failure. -/
def stringRefP {F : Type} (key : Nat) : ParserM F (Value F) :=
  fun s i =>
    match refGet s.strings key with
    | none => .fatal (.missingRef key)
    | some str => .ok s i (.str str)

/-- `table_ref(key)`: a miss is a fatal `MissingRef` failure. -/
def tableRefP {F : Type} (key : Nat) : ParserM F (Value F) :=
  fun s i =>
    match refGet s.tables key with
    | none => .fatal (.missingRef key)
    | some t => .ok s i (.table t)

/-- `many_m_n(n, n, p)`: exactly `n` repetitions. -/
def manyExact {F α : Type} (p : ParserM F α) : Nat → ParserM F (List α)
  | 0 => pureP []
  | n + 1 => pbind p (fun x => pmap (manyExact p n) (fun xs => x :: xs))

/-- Key coercion of `table`: strings pass through, `Int`/`Float`/`Bool`
stringify, `Nil` becomes "nil", and a table key is rejected. -/
def coerceKey {F : Type} (ops : FloatOps F) : Value F → Option String
  | .str s => some s
  | .int n => some (toString n)
  | .float f => some (ops.render f)
  | .bool b => some (if b then "true" else "false")
  | .nil => some "nil"
  | .table _ => none

/-- The key parser of `table`: `map_res(any_object, …)` with the coercion
above; a table in key position is the recoverable `map_res` error that
the production-level `cut` then makes fatal. -/
def keyP {F : Type} (ops : FloatOps F) (p : ParserM F (Value F)) : ParserM F String :=
  fun s i =>
    match p s i with
    | .ok s2 r v =>
      match coerceKey ops v with
      | some k => .ok s2 r k
      | none => .recErr .tableKey
    | .recErr e => .recErr e
    | .fatal e => .fatal e
    | .panic => .panic
    | .nofuel => .nofuel

/-- The entry fold of `table(entry_count)`: key/value pairs inserted left
to right into the map. -/
def tableEntriesGo {F : Type} (ops : FloatOps F) (p : ParserM F (Value F)) :
    Nat → List (String × Value F) → ParserM F (List (String × Value F))
  | 0, acc => pureP acc
  | n + 1, acc =>
    pbind (keyP ops p) (fun k =>
      pbind p (fun v => tableEntriesGo ops p n (insertAssoc acc k v)))

/-- `table(entry_count)`. -/
def tableEntries {F : Type} (ops : FloatOps F) (p : ParserM F (Value F)) (n : Nat) :
    ParserM F (List (String × Value F)) :=
  tableEntriesGo ops p n []

/-- `float_array(entry_count)`. -/
def floatArrayP {F : Type} (ops : FloatOps F) (n : Nat) : ParserM F (Value F) :=
  pmap (manyExact (deserializeFloat ops) n) (fun fs => .table (.floatArray fs))

/-- `mixed_table((array_count, keyed_count))`. -/
def mixedTableP {F : Type} (ops : FloatOps F) (p : ParserM F (Value F))
    (counts : Nat × Nat) : ParserM F (Value F) :=
  pbind (manyExact p counts.1) (fun arr =>
    pmap (tableEntries ops p counts.2) (fun m => .table (.mixed arr m)))

/-- `deserialize_small_object`, with `p` the tied-back `any_object`. -/
def deserializeSmallObject {F : Type} (ops : FloatOps F)
    (p : ParserM F (Value F)) : ParserM F (Value F) :=
  pbind smallObjectHeader (fun hdr =>
    match hdr.2 with
    | 0 => storeStringRef (cutP (pmap (stringP hdr.1) Value.str))
    | 2 => storeTableRef (cutP (alt2 (floatArrayP ops hdr.1)
        (pmap (manyExact p hdr.1) (fun xs => .table (.array xs)))))
    | 1 => storeTableRef (cutP (pmap (tableEntries ops p hdr.1)
        (fun m => .table (.named m))))
    | _ => storeTableRef (cutP (mixedTableP ops p (mixedCount hdr.1))))

/-- `deserialize_large_object`, with `p` the tied-back `any_object`. -/
def deserializeLargeObject {F : Type} (ops : FloatOps F)
    (p : ParserM F (Value F)) : ParserM F (Value F) :=
  pbind largeObjectHeaderP (fun tag =>
    match tag with
    | 0 => pureP .nil
    | 12 => pureP (.bool true)
    | 13 => pureP (.bool false)
    | 1 | 3 | 5 | 7 => cutP (pmap (intI64 (lohBytes tag)) Value.int)
    | 2 | 4 | 6 | 8 => cutP (pmap (intI64 (lohBytes tag)) (fun n => .int (-n)))
    | 14 | 15 | 16 =>
      storeStringRef (cutP (pbind (intCount (lohBytes tag))
        (fun n => pmap (stringP n) Value.str)))
    | 17 | 18 | 19 =>
      storeTableRef (cutP (pbind (intCount (lohBytes tag))
        (fun n => pmap (tableEntries ops p n) (fun m => .table (.named m)))))
    | 20 | 21 | 22 =>
      storeTableRef (cutP (alt2
        (pbind (intCount (lohBytes tag)) (floatArrayP ops))
        (pbind (intCount (lohBytes tag))
          (fun n => pmap (manyExact p n) (fun xs => .table (.array xs))))))
    | 23 | 24 | 25 =>
      storeTableRef (cutP (pbind (intCount (lohBytes tag)) (fun a =>
        pbind (intCount (lohBytes tag)) (fun k => mixedTableP ops p (a, k)))))
    | 9 => cutP (pmap (floatP ops) Value.float)
    | 10 => cutP (pbind (intCount (lohBytes tag)) (fun n =>
        pmap (floatStrP ops n) Value.float))
    | 11 => cutP (pbind (intCount (lohBytes tag)) (fun n =>
        pmap (floatStrP ops n) (fun f => .float (ops.neg f))))
    | 29 | 30 | 31 => cutP (pbind (intCount (lohBytes tag)) tableRefP)
    | 26 | 27 | 28 => cutP (pbind (intCount (lohBytes tag)) stringRefP)
    | _ => fun _ _ => .recErr .parseFail)

/-- `any_object`: the four-way `alt`, with recursion bounded by fuel (the
Rust recursion depth is bounded by the input length: every recursive call
first consumes a header byte). -/
def anyObject {F : Type} (ops : FloatOps F) : Nat → ParserM F (Value F)
  | 0 => fun _ _ => .nofuel
  | fuel + 1 =>
    alt2 deserializeUshort
      (alt2 deserializeMedint
        (alt2 (deserializeSmallObject ops (anyObject ops fuel))
          (deserializeLargeObject ops (anyObject ops fuel))))

/-- Top-level result of `deserialize`. -/
inductive TopRes (F : Type) where
  | ok (v : Value F) : TopRes F
  | error : TopRes F
  | panic : TopRes F
  | nofuel : TopRes F

/-- `deserialize`: run `version_byte` then one `any_object` on a fresh
(empty) pair of reference tables; both nom error classes collapse into
`SerializeParseError`, and remaining input is ignored. -/
def deserializeLS {F : Type} (ops : FloatOps F) (input : List Nat) : TopRes F :=
  match pbind versionByteP (fun _ => anyObject ops (input.length + 1))
      (RefState.mk [] []) input with
  | .ok _ _ v => .ok v
  | .recErr _ => .error
  | .fatal _ => .error
  | .panic => .panic
  | .nofuel => .nofuel


/-- Running the deserializer from an arbitrary starting table state
(generalizing `deserializeLS`, whose start state is empty). -/
def deserializeFrom {F : Type} (ops : FloatOps F) (s0 : RefState F)
    (input : List Nat) : TopRes F :=
  match pbind versionByteP (fun _ => anyObject ops (input.length + 1)) s0 input with
  | .ok _ _ v => .ok v
  | .recErr _ => .error
  | .fatal _ => .error
  | .panic => .panic
  | .nofuel => .nofuel

/-- A concrete instantiation of the abstract float operations, used only
to evaluate the decoder at concrete inputs in witnesses. -/
def natFloatOps : FloatOps Nat where
  ofBits := fun n => n
  ofLit := fun _ => 0
  ofString := fun s => some s.length
  neg := fun f => f
  render := toString
  ofInt := Int.toNat

/-- Claim C1: with a version byte `≤ 2` and a tag byte whose low three
bits (LSB first) are `0,0,1` (`t % 8 = 4`, packed i12), the deserializer
returns `Int(m)` whose low magnitude nibble is bits 4..7 of the tag byte,
whose high 8 bits are the following byte, and whose sign is bit 3 of the
tag byte; in particular `[0x01, 0x24, 0x4d] ↦ Int 1234` and
`[0x01, 0x7c, 0x1a] ↦ Int (-423)`. -/
theorem medint_deserialize (F : Type) (ops : FloatOps F)
    (v t h : Nat) (rest : List Nat)
    (hv : v ≤ 2) (ht : t < 256) (htag : t % 8 = 4) (hh : h < 256) :
    deserializeLS ops (v :: t :: h :: rest) =
      .ok (.int (if t.testBit 3 then -((t / 16 + 16 * h : Nat) : Int)
        else ((t / 16 + 16 * h : Nat) : Int))) ∧
    deserializeLS ops [0x01, 0x24, 0x4d] = .ok (.int 1234) ∧
    deserializeLS ops [0x01, 0x7c, 0x1a] = .ok (.int (-423)) := by
  refine ⟨?_, rfl, rfl⟩
  have ht2 : ¬ (t % 2 = 1) := by omega
  have hlow : t / 16 % 16 = t / 16 := Nat.mod_eq_of_lt (by omega)
  have hhm : h % 256 = h := Nat.mod_eq_of_lt hh
  simp [deserializeLS, pbind, versionByteP, verifyP, byteP, hv, anyObject, alt2,
    deserializeUshort, deserializeMedint, taggedByte, pmap, htag, ht2, hlow, hhm,
    List.length_cons]

/-- Witness for C1 at the concrete bytes `[0x01, 0x24, 0x4d]`. -/
theorem medint_deserialize_witness :
    deserializeLS natFloatOps (1 :: 0x24 :: 0x4d :: []) =
      .ok (.int (if (0x24 : Nat).testBit 3
        then -((0x24 / 16 + 16 * 0x4d : Nat) : Int)
        else ((0x24 / 16 + 16 * 0x4d : Nat) : Int))) ∧
    deserializeLS natFloatOps [0x01, 0x24, 0x4d] = .ok (.int 1234) ∧
    deserializeLS natFloatOps [0x01, 0x7c, 0x1a] = .ok (.int (-423)) :=
  medint_deserialize Nat natFloatOps 1 0x24 0x4d []
    (by decide) (by decide) (by decide) (by decide)

/-- Claim C5 (code bug): a large-object header with tag 7 (`I64Pos`,
header byte 0x38) or tag 8 (`I64Neg`, header byte 0x40) panics instead of
reading a 7-byte big-endian magnitude: `LargeObjectHeader::bytes` returns
7 for these tags but `int` has no 7-byte arm and hits
`unimplemented!("7 is not a supported integer size")`. -/
theorem i64_tags_panic (F : Type) (ops : FloatOps F) (rest : List Nat) :
    deserializeLS ops (1 :: 0x38 :: rest) = .panic ∧
    deserializeLS ops (1 :: 0x40 :: rest) = .panic := by
  constructor <;> rfl


/-! ## Back-reference table semantics (C3) -/

/-- The second table state extends the first append-only. -/
def RefLe {F : Type} (s s2 : RefState F) : Prop :=
  (∃ d, s2.strings = s.strings ++ d) ∧ (∃ d, s2.tables = s.tables ++ d)

theorem RefLe.refl {F : Type} (s : RefState F) : RefLe s s :=
  ⟨⟨[], by simp⟩, ⟨[], by simp⟩⟩

theorem RefLe.trans {F : Type} {a b c : RefState F}
    (h1 : RefLe a b) (h2 : RefLe b c) : RefLe a c := by
  obtain ⟨⟨d1, hd1⟩, ⟨e1, he1⟩⟩ := h1
  obtain ⟨⟨d2, hd2⟩, ⟨e2, he2⟩⟩ := h2
  exact ⟨⟨d1 ++ d2, by rw [hd2, hd1, List.append_assoc]⟩,
    ⟨e1 ++ e2, by rw [he2, he1, List.append_assoc]⟩⟩

/-- A parser whose successful runs only ever append to the two
back-reference tables. -/
def StateMono {F α : Type} (p : ParserM F α) : Prop :=
  ∀ s i s2 r a, p s i = .ok s2 r a → RefLe s s2

theorem stateMono_pure {F α : Type} (a : α) : StateMono (F := F) (pureP a) := by
  intro s i s2 r b h
  simp only [pureP, PR.ok.injEq] at h
  obtain ⟨rfl, -, -⟩ := h
  exact RefLe.refl _

theorem stateMono_panicP {F α : Type} :
    StateMono (F := F) (α := α) (fun _ _ => .panic) := by
  intro s i s2 r a h
  simp at h

theorem stateMono_recErrP {F α : Type} (e : DeserErr) :
    StateMono (F := F) (α := α) (fun _ _ => .recErr e) := by
  intro s i s2 r a h
  simp at h

theorem stateMono_byteP {F : Type} : StateMono (F := F) byteP := by
  intro s i s2 r a h
  cases i with
  | nil => simp [byteP] at h
  | cons b rest =>
    simp only [byteP, PR.ok.injEq] at h
    obtain ⟨rfl, -, -⟩ := h
    exact RefLe.refl _

theorem stateMono_takeP {F : Type} (n : Nat) : StateMono (F := F) (takeP n) := by
  intro s i s2 r a h
  unfold takeP at h
  split at h
  · simp at h
  · simp only [PR.ok.injEq] at h
    obtain ⟨rfl, -, -⟩ := h
    exact RefLe.refl _

theorem stateMono_verifyP {F α : Type} {p : ParserM F α} (hp : StateMono p)
    (pred : α → Bool) : StateMono (verifyP p pred) := by
  intro s i s2 r a h
  unfold verifyP at h
  split at h
  · next s3 r3 a3 heq =>
    split at h
    · simp only [PR.ok.injEq] at h
      obtain ⟨rfl, -, -⟩ := h
      exact hp _ _ _ _ _ heq
    · simp at h
  all_goals simp at h

theorem stateMono_pbind {F α β : Type} {p : ParserM F α} {f : α → ParserM F β}
    (hp : StateMono p) (hf : ∀ a, StateMono (f a)) : StateMono (pbind p f) := by
  intro s i s2 r a h
  unfold pbind at h
  split at h
  · next s3 r3 a3 heq =>
    exact RefLe.trans (hp _ _ _ _ _ heq) (hf a3 _ _ _ _ _ h)
  all_goals simp at h

theorem stateMono_pmap {F α β : Type} {p : ParserM F α} (hp : StateMono p)
    (f : α → β) : StateMono (pmap p f) := by
  intro s i s2 r a h
  unfold pmap at h
  split at h
  · next s3 r3 a3 heq =>
    simp only [PR.ok.injEq] at h
    obtain ⟨rfl, -, -⟩ := h
    exact hp _ _ _ _ _ heq
  all_goals simp at h

theorem stateMono_alt2 {F α : Type} {p q : ParserM F α}
    (hp : StateMono p) (hq : StateMono q) : StateMono (alt2 p q) := by
  intro s i s2 r a h
  unfold alt2 at h
  split at h
  · next s3 r3 a3 heq =>
    simp only [PR.ok.injEq] at h
    obtain ⟨rfl, -, -⟩ := h
    exact hp _ _ _ _ _ heq
  · exact hq _ _ _ _ _ h
  all_goals simp at h

theorem stateMono_cutP {F α : Type} {p : ParserM F α} (hp : StateMono p) :
    StateMono (cutP p) := by
  intro s i s2 r a h
  unfold cutP at h
  split at h
  · next s3 r3 a3 heq =>
    simp only [PR.ok.injEq] at h
    obtain ⟨rfl, -, -⟩ := h
    exact hp _ _ _ _ _ heq
  all_goals simp at h

theorem stateMono_storeStringRef {F : Type} {p : ParserM F (Value F)}
    (hp : StateMono p) : StateMono (storeStringRef p) := by
  intro s i s2 r a h
  unfold storeStringRef at h
  split at h
  · next s3 r3 v heq =>
    have hle := hp _ _ _ _ _ heq
    split at h <;> simp only [PR.ok.injEq] at h <;> obtain ⟨rfl, -, -⟩ := h
    · next str =>
      exact RefLe.trans hle ⟨⟨[str], rfl⟩, ⟨[], by simp⟩⟩
    · exact hle
  all_goals simp at h

theorem stateMono_storeTableRef {F : Type} {p : ParserM F (Value F)}
    (hp : StateMono p) : StateMono (storeTableRef p) := by
  intro s i s2 r a h
  unfold storeTableRef at h
  split at h
  · next s3 r3 v heq =>
    have hle := hp _ _ _ _ _ heq
    split at h <;> simp only [PR.ok.injEq] at h <;> obtain ⟨rfl, -, -⟩ := h
    · next t =>
      exact RefLe.trans hle ⟨⟨[], by simp⟩, ⟨[t], rfl⟩⟩
    · exact hle
  all_goals simp at h

theorem stateMono_stringRefP {F : Type} (k : Nat) :
    StateMono (F := F) (stringRefP k) := by
  intro s i s2 r a h
  unfold stringRefP at h
  split at h
  · simp at h
  · simp only [PR.ok.injEq] at h
    obtain ⟨rfl, -, -⟩ := h
    exact RefLe.refl _

theorem stateMono_tableRefP {F : Type} (k : Nat) :
    StateMono (F := F) (tableRefP k) := by
  intro s i s2 r a h
  unfold tableRefP at h
  split at h
  · simp at h
  · simp only [PR.ok.injEq] at h
    obtain ⟨rfl, -, -⟩ := h
    exact RefLe.refl _

theorem stateMono_intCount {F : Type} (w : Nat) : StateMono (F := F) (intCount w) := by
  unfold intCount
  split
  any_goals exact stateMono_pmap (stateMono_takeP _) _
  exact stateMono_panicP

theorem stateMono_intI64 {F : Type} (w : Nat) : StateMono (F := F) (intI64 w) := by
  unfold intI64
  split
  any_goals exact stateMono_pmap (stateMono_takeP _) _
  · refine stateMono_pbind (stateMono_takeP _) (fun bs => ?_)
    intro s i s2 r a h
    simp only at h
    split at h
    · simp only [PR.ok.injEq] at h
      obtain ⟨rfl, -, -⟩ := h
      exact RefLe.refl _
    · simp at h
  · exact stateMono_panicP

theorem stateMono_stringP {F : Type} (n : Nat) : StateMono (F := F) (stringP n) := by
  refine stateMono_pbind (stateMono_takeP _) (fun bs => ?_)
  intro s i s2 r a h
  simp only at h
  split at h
  · simp only [PR.ok.injEq] at h
    obtain ⟨rfl, -, -⟩ := h
    exact RefLe.refl _
  · simp at h

theorem stateMono_floatP {F : Type} (ops : FloatOps F) : StateMono (floatP ops) :=
  stateMono_pmap (stateMono_takeP _) _

theorem stateMono_floatStrP {F : Type} (ops : FloatOps F) (n : Nat) :
    StateMono (floatStrP ops n) := by
  refine stateMono_pbind (stateMono_takeP _) (fun bs => ?_)
  intro s i s2 r a h
  simp only at h
  split at h
  · simp at h
  · split at h
    · simp at h
    · simp only [PR.ok.injEq] at h
      obtain ⟨rfl, -, -⟩ := h
      exact RefLe.refl _

theorem stateMono_largeObjectHeaderP {F : Type} :
    StateMono (F := F) largeObjectHeaderP :=
  stateMono_pmap (stateMono_verifyP stateMono_byteP _) _

theorem stateMono_deserializeFloat {F : Type} (ops : FloatOps F) :
    StateMono (deserializeFloat ops) := by
  intro s i s2 r a h
  unfold deserializeFloat at h
  split at h
  · next s3 r3 tag heq =>
    split at h
    · exact RefLe.trans (stateMono_largeObjectHeaderP _ _ _ _ _ heq)
        (stateMono_floatP ops _ _ _ _ _ h)
    · simp at h
  all_goals simp at h

theorem stateMono_manyExact {F α : Type} {p : ParserM F α} (hp : StateMono p) :
    ∀ n, StateMono (manyExact p n) := by
  intro n
  induction n with
  | zero => exact stateMono_pure _
  | succ n ih =>
    exact stateMono_pbind hp (fun x => stateMono_pmap ih _)

theorem stateMono_keyP {F : Type} {ops : FloatOps F} {p : ParserM F (Value F)}
    (hp : StateMono p) : StateMono (keyP ops p) := by
  intro s i s2 r a h
  unfold keyP at h
  split at h
  · next s3 r3 v heq =>
    split at h
    · simp only [PR.ok.injEq] at h
      obtain ⟨rfl, -, -⟩ := h
      exact hp _ _ _ _ _ heq
    · simp at h
  all_goals simp at h

theorem stateMono_tableEntriesGo {F : Type} {ops : FloatOps F}
    {p : ParserM F (Value F)} (hp : StateMono p) :
    ∀ n acc, StateMono (tableEntriesGo ops p n acc) := by
  intro n
  induction n with
  | zero => intro acc; exact stateMono_pure _
  | succ n ih =>
    intro acc
    exact stateMono_pbind (stateMono_keyP hp)
      (fun k => stateMono_pbind hp (fun v => ih _))

theorem stateMono_tableEntries {F : Type} {ops : FloatOps F}
    {p : ParserM F (Value F)} (hp : StateMono p) (n : Nat) :
    StateMono (tableEntries ops p n) :=
  stateMono_tableEntriesGo hp n []

theorem stateMono_floatArrayP {F : Type} (ops : FloatOps F) (n : Nat) :
    StateMono (floatArrayP ops n) :=
  stateMono_pmap (stateMono_manyExact (stateMono_deserializeFloat ops) n) _

theorem stateMono_mixedTableP {F : Type} {ops : FloatOps F}
    {p : ParserM F (Value F)} (hp : StateMono p) (counts : Nat × Nat) :
    StateMono (mixedTableP ops p counts) :=
  stateMono_pbind (stateMono_manyExact hp _)
    (fun _ => stateMono_pmap (stateMono_tableEntries hp _) _)

theorem stateMono_smallObjectHeader {F : Type} :
    StateMono (F := F) smallObjectHeader :=
  stateMono_pmap (stateMono_verifyP stateMono_byteP _) _

theorem stateMono_deserializeSmallObject {F : Type} {ops : FloatOps F}
    {p : ParserM F (Value F)} (hp : StateMono p) :
    StateMono (deserializeSmallObject ops p) := by
  refine stateMono_pbind stateMono_smallObjectHeader (fun hdr => ?_)
  rcases hdr with ⟨count, tag⟩
  match tag with
  | 0 =>
    exact stateMono_storeStringRef (stateMono_cutP (stateMono_pmap (stateMono_stringP _) _))
  | 1 =>
    exact stateMono_storeTableRef (stateMono_cutP (stateMono_pmap (stateMono_tableEntries hp _) _))
  | 2 =>
    exact stateMono_storeTableRef (stateMono_cutP (stateMono_alt2 (stateMono_floatArrayP ops _)
      (stateMono_pmap (stateMono_manyExact hp _) _)))
  | n + 3 =>
    exact stateMono_storeTableRef (stateMono_cutP (stateMono_mixedTableP hp _))

theorem stateMono_deserializeLargeObject {F : Type} {ops : FloatOps F}
    {p : ParserM F (Value F)} (hp : StateMono p) :
    StateMono (deserializeLargeObject ops p) := by
  refine stateMono_pbind stateMono_largeObjectHeaderP (fun tag => ?_)
  split
  all_goals first
    | exact stateMono_pure _
    | exact stateMono_recErrP _
    | exact stateMono_cutP (stateMono_pmap (stateMono_intI64 _) _)
    | exact stateMono_storeStringRef (stateMono_cutP (stateMono_pbind (stateMono_intCount _)
        (fun n => stateMono_pmap (stateMono_stringP _) _)))
    | exact stateMono_storeTableRef (stateMono_cutP (stateMono_pbind (stateMono_intCount _)
        (fun n => stateMono_pmap (stateMono_tableEntries hp _) _)))
    | exact stateMono_storeTableRef (stateMono_cutP (stateMono_alt2
        (stateMono_pbind (stateMono_intCount _) (fun n => stateMono_floatArrayP ops _))
        (stateMono_pbind (stateMono_intCount _)
          (fun n => stateMono_pmap (stateMono_manyExact hp _) _))))
    | exact stateMono_storeTableRef (stateMono_cutP (stateMono_pbind (stateMono_intCount _)
        (fun a => stateMono_pbind (stateMono_intCount _)
          (fun k => stateMono_mixedTableP hp _))))
    | exact stateMono_cutP (stateMono_pmap (stateMono_floatP ops) _)
    | exact stateMono_cutP (stateMono_pbind (stateMono_intCount _)
        (fun n => stateMono_pmap (stateMono_floatStrP ops n) _))
    | exact stateMono_cutP (stateMono_pbind (stateMono_intCount _) stateMono_tableRefP)
    | exact stateMono_cutP (stateMono_pbind (stateMono_intCount _) stateMono_stringRefP)

theorem stateMono_anyObject {F : Type} (ops : FloatOps F) :
    ∀ fuel, StateMono (anyObject ops fuel) := by
  intro fuel
  induction fuel with
  | zero =>
    intro s i s2 r a h
    simp [anyObject] at h
  | succ fuel ih =>
    exact stateMono_alt2 (stateMono_pmap (stateMono_verifyP stateMono_byteP _) _)
      (stateMono_alt2 (stateMono_pbind (stateMono_verifyP stateMono_byteP _)
        (fun low => stateMono_pmap stateMono_byteP _))
        (stateMono_alt2 (stateMono_deserializeSmallObject ih)
          (stateMono_deserializeLargeObject ih)))

/-- Claim C3: the two back-reference tables start empty on each top-level
decode; a back-reference with index `k ≥ 1` returns a copy of entry
`k − 1` when it exists and fails fatally with `MissingRef k` otherwise
(in particular for `k` greater than the table length); index `k = 0`
wraps the `key - 1` subtraction and also fails with `MissingRef 0`;
every string production wrapped in `store_string_ref` appends its decoded
string, every table production wrapped in `store_table_ref` appends its
decoded table, and any successful parse only ever appends to the two
tables (they are append-only). -/
theorem backref_table_semantics (F : Type) (ops : FloatOps F) :
    (∀ input : List Nat,
      deserializeLS ops input = deserializeFrom ops (RefState.mk [] []) input) ∧
    (∀ (s : RefState F) (i : List Nat) (k : Nat), 1 ≤ k → k < 2 ^ 64 →
      stringRefP k s i =
        (match s.strings.get? (k - 1) with
         | some str => .ok s i (.str str)
         | none => .fatal (.missingRef k))) ∧
    (∀ (s : RefState F) (i : List Nat), s.strings.length < 2 ^ 64 →
      stringRefP 0 s i = .fatal (.missingRef 0)) ∧
    (∀ (s : RefState F) (i : List Nat) (k : Nat), 1 ≤ k → k < 2 ^ 64 →
      tableRefP k s i =
        (match s.tables.get? (k - 1) with
         | some t => .ok s i (.table t)
         | none => .fatal (.missingRef k))) ∧
    (∀ (s : RefState F) (i : List Nat), s.tables.length < 2 ^ 64 →
      tableRefP 0 s i = .fatal (.missingRef 0)) ∧
    (∀ (p : ParserM F (Value F)) (s : RefState F) (i : List Nat) s2 r str,
      p s i = .ok s2 r (.str str) →
      storeStringRef p s i =
        .ok (RefState.mk (s2.strings ++ [str]) s2.tables) r (.str str)) ∧
    (∀ (p : ParserM F (Value F)) (s : RefState F) (i : List Nat) s2 r t,
      p s i = .ok s2 r (.table t) →
      storeTableRef p s i =
        .ok (RefState.mk s2.strings (s2.tables ++ [t])) r (.table t)) ∧
    (∀ (fuel : Nat) (s : RefState F) (i : List Nat) s2 r a,
      anyObject ops fuel s i = .ok s2 r a → RefLe s s2) := by
  refine ⟨fun _ => rfl, ?_, ?_, ?_, ?_, ?_, ?_, ?_⟩
  · intro s i k hk hk64
    have hidx : (k + (2 ^ 64 - 1)) % 2 ^ 64 = k - 1 := by omega
    unfold stringRefP refGet
    rw [hidx]
    cases s.strings.get? (k - 1) <;> rfl
  · intro s i hlen
    have hidx : ((0 : Nat) + (2 ^ 64 - 1)) % 2 ^ 64 = 2 ^ 64 - 1 := by norm_num
    unfold stringRefP refGet
    rw [hidx, List.get?_eq_none.mpr (by omega)]
  · intro s i k hk hk64
    have hidx : (k + (2 ^ 64 - 1)) % 2 ^ 64 = k - 1 := by omega
    unfold tableRefP refGet
    rw [hidx]
    cases s.tables.get? (k - 1) <;> rfl
  · intro s i hlen
    have hidx : ((0 : Nat) + (2 ^ 64 - 1)) % 2 ^ 64 = 2 ^ 64 - 1 := by norm_num
    unfold tableRefP refGet
    rw [hidx, List.get?_eq_none.mpr (by omega)]
  · intro p s i s2 r str hp
    unfold storeStringRef
    rw [hp]
  · intro p s i s2 r t hp
    unfold storeTableRef
    rw [hp]
  · intro fuel s i s2 r a h
    exact stateMono_anyObject ops fuel s i s2 r a h

/-- Witness for C3 at concrete states and inputs. -/
theorem backref_table_semantics_witness :
    deserializeLS natFloatOps [1, 11] =
      deserializeFrom natFloatOps (RefState.mk [] []) [1, 11] ∧
    stringRefP 1 (RefState.mk ["foo"] ([] : List (TableV Nat))) [] =
      (match ["foo"].get? 0 with
       | some str => .ok (RefState.mk ["foo"] ([] : List (TableV Nat))) [] (.str str)
       | none => .fatal (.missingRef 1)) ∧
    stringRefP 2 (RefState.mk ["foo"] ([] : List (TableV Nat))) [] =
      (match ["foo"].get? 1 with
       | some str => .ok (RefState.mk ["foo"] ([] : List (TableV Nat))) [] (.str str)
       | none => .fatal (.missingRef 2)) ∧
    stringRefP 0 (RefState.mk ["foo"] ([] : List (TableV Nat))) [] =
      .fatal (.missingRef 0) ∧
    tableRefP 1 (RefState.mk [] [TableV.empty (F := Nat)]) [] =
      (match [TableV.empty (F := Nat)].get? 0 with
       | some t => .ok (RefState.mk [] [TableV.empty (F := Nat)]) [] (.table t)
       | none => .fatal (.missingRef 1)) ∧
    tableRefP 0 (RefState.mk [] [TableV.empty (F := Nat)]) [] =
      .fatal (.missingRef 0) ∧
    storeStringRef (pureP (.str "s")) (RefState.mk [] ([] : List (TableV Nat))) [] =
      .ok (RefState.mk ([] ++ ["s"]) []) [] (.str "s") ∧
    storeTableRef (pureP (.table .empty)) (RefState.mk ([] : List String) []) [] =
      .ok (RefState.mk [] (([] : List (TableV Nat)) ++ [.empty])) [] (.table .empty) ∧
    RefLe (RefState.mk ([] : List String) ([] : List (TableV Nat)))
      (RefState.mk [] []) := by
  have h := backref_table_semantics Nat natFloatOps
  refine ⟨h.1 [1, 11],
    h.2.1 _ [] 1 (by norm_num) (by norm_num),
    h.2.1 _ [] 2 (by norm_num) (by norm_num),
    h.2.2.1 _ [] (by norm_num),
    h.2.2.2.1 _ [] 1 (by norm_num) (by norm_num),
    h.2.2.2.2.1 _ [] (by norm_num),
    h.2.2.2.2.2.1 _ _ [] _ [] "s" rfl,
    h.2.2.2.2.2.2.1 _ _ [] _ [] .empty rfl,
    h.2.2.2.2.2.2.2 1 _ [11] _ [] (.int 5) rfl⟩

/-- Claim C7: a decoded key of a Named (keyed) table passes through when
it is a string, is stringified when it is an `Int` (decimal), `Float`
(its `Display` form), or `Bool` (`"true"`/`"false"`), becomes `"nil"`
when it is `Nil`, and is a fatal error when it is any table variant: the
key parser turns a table into the `map_res` error that the enclosing
`cut` of the table production converts to a fatal failure. -/
theorem table_key_coercion (F : Type) (ops : FloatOps F) :
    (∀ str, coerceKey ops (Value.str str) = some str) ∧
    (∀ n : Int, coerceKey ops (.int n) = some (toString n)) ∧
    (∀ f, coerceKey ops (.float f) = some (ops.render f)) ∧
    (coerceKey ops (.bool true) = some "true") ∧
    (coerceKey ops (.bool false) = some "false") ∧
    (coerceKey ops .nil = some "nil") ∧
    (∀ t, coerceKey ops (.table t) = none) ∧
    (∀ (p : ParserM F (Value F)) s i s2 r v, p s i = .ok s2 r v →
      keyP ops p s i =
        (match coerceKey ops v with
         | some k => .ok s2 r k
         | none => .recErr .tableKey)) ∧
    (∀ (p : ParserM F (Value F)) (s : RefState F) (b : Nat) (i : List Nat),
      b % 4 = 2 → b / 4 % 4 = 1 → 1 ≤ b / 16 % 16 →
      keyP ops p s i = .recErr .tableKey →
      deserializeSmallObject ops p s (b :: i) = .fatal .tableKey) := by
  refine ⟨fun _ => rfl, fun _ => rfl, fun _ => rfl, rfl, rfl, rfl, fun _ => rfl,
    ?_, ?_⟩
  · intro p s i s2 r v hp
    unfold keyP
    rw [hp]
  · intro p s b i hb htag hcount hkey
    obtain ⟨c, hc⟩ : ∃ c, b / 16 % 16 = c + 1 :=
      ⟨b / 16 % 16 - 1, by omega⟩
    have hb2 : b % 2 ^ 2 = 2 := by simpa using hb
    simp [deserializeSmallObject, smallObjectHeader, taggedByte, verifyP,
      byteP, pbind, pmap, hb, hb2, htag, hc, tableEntries, tableEntriesGo,
      hkey, cutP, storeTableRef]

/-- Witness for C7 at concrete inputs (header byte 0x16 opens a one-entry
keyed table; the key parser is handed a parser producing a table). -/
theorem table_key_coercion_witness :
    coerceKey natFloatOps (Value.str "k") = some "k" ∧
    coerceKey natFloatOps (.int (-5)) = some (toString (-5 : Int)) ∧
    coerceKey natFloatOps (.float 3) = some (natFloatOps.render 3) ∧
    coerceKey natFloatOps (.bool true) = some "true" ∧
    coerceKey natFloatOps (.bool false) = some "false" ∧
    coerceKey natFloatOps .nil = some "nil" ∧
    coerceKey natFloatOps (.table .empty) = none ∧
    keyP natFloatOps (pureP (.int 7)) (RefState.mk [] []) [] =
      (match coerceKey natFloatOps (.int 7) with
       | some k => .ok (RefState.mk [] []) [] k
       | none => .recErr .tableKey) ∧
    deserializeSmallObject natFloatOps (pureP (.table .empty))
      (RefState.mk [] []) (0x16 :: []) = .fatal .tableKey := by
  have h := table_key_coercion Nat natFloatOps
  refine ⟨h.1 "k", h.2.1 (-5), h.2.2.1 3, h.2.2.2.1, h.2.2.2.2.1,
    h.2.2.2.2.2.1, h.2.2.2.2.2.2.1 .empty,
    h.2.2.2.2.2.2.2.1 _ _ [] _ [] _ rfl,
    h.2.2.2.2.2.2.2.2 _ _ 0x16 [] (by norm_num) (by norm_num) (by norm_num) rfl⟩


/-! ## Schema mapper — port of src/site/wasm/src/parser/mod.rs

`parser/mod.rs` declares its own `Value`/`Table` pair (without the
`FloatArray` variant); the `TryFrom` conversions below are the expansions
of the `from_value!`/`try_from_keys!` macros.  `unreachable!` and
`unimplemented!` panics are the distinguished `panic` outcome. -/

mutual

/-- `parser::Value` (mod.rs). -/
inductive PValue (F : Type) where
  | nil : PValue F
  | bool (b : Bool) : PValue F
  | int (n : Int) : PValue F
  | float (f : F) : PValue F
  | str (s : String) : PValue F
  | table (t : PTable F) : PValue F

/-- `parser::Table` (mod.rs) — no `FloatArray` variant here. -/
inductive PTable (F : Type) where
  | empty : PTable F
  | named (entries : List (String × PValue F)) : PTable F
  | array (xs : List (PValue F)) : PTable F
  | mixed (arrayPart : List (PValue F)) (namedPart : List (String × PValue F)) : PTable F

end

/-- `HashMap::remove` on the association-list model: the removed value
(if any) and the map without that binding. -/
def removeAssoc {α : Type} : List (String × α) → String →
    Option α × List (String × α)
  | [], _ => (none, [])
  | (k, v) :: rest, key =>
    if k = key then (some v, rest)
    else
      let r := removeAssoc rest key
      (r.1, (k, v) :: r.2)

/-- `SavedVariablesError` kinds relevant to the mapper (the `actual`
payloads are `format!` debug strings and are not modelled). -/
inductive SVErr where
  | badType (name expected : String) : SVErr
  | missingKey (name key : String) : SVErr
  | invalidPrimitive (expected : String) : SVErr
  | signCast : SVErr
deriving DecidableEq

/-- Result of a `TryFrom` conversion: `panic` models `unreachable!` and
`unimplemented!`. -/
inductive MRes (α : Type) where
  | ok (a : α) : MRes α
  | err (e : SVErr) : MRes α
  | panic : MRes α

/-- The `?` operator on conversion results. -/
def MRes.bind {α β : Type} : MRes α → (α → MRes β) → MRes β
  | .ok a, f => f a
  | .err e, _ => .err e
  | .panic, _ => .panic

/-- `TryFrom<Value> for u64`: only `Int`, and `i64 → u64` fails on
negatives (`SignCastError`). -/
def tryU64 {F : Type} : PValue F → MRes Nat
  | .int v => if v < 0 then .err .signCast else .ok v.toNat
  | _ => .err (.invalidPrimitive "integer")

/-- `TryFrom<Value> for f64`: `Float` passes, `Int` is widened with
`as f64`. -/
def tryF64 {F : Type} (ops : FloatOps F) : PValue F → MRes F
  | .float v => .ok v
  | .int v => .ok (ops.ofInt v)
  | _ => .err (.invalidPrimitive "float")

/-- `TryFrom<Value> for bool`. -/
def tryBool {F : Type} : PValue F → MRes Bool
  | .bool v => .ok v
  | _ => .err (.invalidPrimitive "bool")

/-- `TryFrom<Value> for Cow<str>`. -/
def tryStr {F : Type} : PValue F → MRes String
  | .str s => .ok s
  | _ => .err (.invalidPrimitive "string")

/-- Elementwise conversion of an array (`vec.into_iter().map(V::try_from)
.collect()`). -/
def mapMRes {F α : Type} (conv : PValue F → MRes α) :
    List (PValue F) → MRes (List α)
  | [] => .ok []
  | v :: rest =>
    (conv v).bind fun a => (mapMRes conv rest).bind fun xs => .ok (a :: xs)

/-- `TryFrom<Value> for Vec<V>`: arrays convert elementwise, `Empty` is
the empty vector. -/
def tryVec {F α : Type} (conv : PValue F → MRes α) : PValue F → MRes (List α)
  | .table (.array vs) => mapMRes conv vs
  | .table .empty => .ok []
  | _ => .err (.badType "Array" "Monotyped Table")

/-- A required key of `try_from_keys!`: remove, then convert. -/
def requiredKey {F α : Type} (structName fieldName : String)
    (conv : PValue F → MRes α) (m : List (String × PValue F)) :
    MRes (α × List (String × PValue F)) :=
  match removeAssoc m fieldName with
  | (none, _) => .err (.missingKey structName fieldName)
  | (some v, m2) => (conv v).bind fun a => .ok (a, m2)

/-- An optional key of `try_from_keys!`: absent is `None`; present values
convert with the field's element conversion. -/
def optionalKey {F α : Type} (conv : PValue F → MRes α)
    (m : List (String × PValue F)) (fieldName : String) :
    MRes (Option α × List (String × PValue F)) :=
  match removeAssoc m fieldName with
  | (none, m2) => .ok (none, m2)
  | (some v, m2) => (conv v).bind fun a => .ok (some a, m2)

/-- `Stats` (mod.rs). -/
structure StatsR (F : Type) where
  mean : F
  variance : Option F
  skew : Option F
  samples : List F
deriving DecidableEq

/-- `TryFrom<Value> for Stats` — `try_from_struct!((owned) Stats
{ mean, samples; variance, skew })`. -/
def tryStats {F : Type} (ops : FloatOps F) : PValue F → MRes (StatsR F)
  | .table (.named m) =>
    (requiredKey "Stats" "mean" (tryF64 ops) m).bind fun p1 =>
    (requiredKey "Stats" "samples" (tryVec (tryF64 ops)) p1.2).bind fun p2 =>
    (optionalKey (tryF64 ops) p2.2 "variance").bind fun p3 =>
    (optionalKey (tryF64 ops) p3.2 "skew").bind fun p4 =>
    .ok ⟨p1.1, p3.1, p4.1, p2.1⟩
  | _ => .err (.badType "Stats" "Associative Table")

/-- `TrackerData` (mod.rs). -/
structure TrackerDataR (F : Type) where
  stats : StatsR F
  calls : Nat
  commits : Nat
  officialTime : Option F
  total_time : F
  top5 : List F
deriving DecidableEq

/-- `TryFrom<Value> for TrackerData` — `try_from_struct!((owned)
TrackerData { stats, calls, commits, total_time, top5; officialTime })`. -/
def tryTrackerData {F : Type} (ops : FloatOps F) : PValue F → MRes (TrackerDataR F)
  | .table (.named m) =>
    (requiredKey "TrackerData" "stats" (tryStats ops) m).bind fun p1 =>
    (requiredKey "TrackerData" "calls" tryU64 p1.2).bind fun p2 =>
    (requiredKey "TrackerData" "commits" tryU64 p2.2).bind fun p3 =>
    (requiredKey "TrackerData" "total_time" (tryF64 ops) p3.2).bind fun p4 =>
    (requiredKey "TrackerData" "top5" (tryVec (tryF64 ops)) p4.2).bind fun p5 =>
    (optionalKey (tryF64 ops) p5.2 "officialTime").bind fun p6 =>
    .ok ⟨p1.1, p2.1, p3.1, p6.1, p4.1, p5.1⟩
  | _ => .err (.badType "TrackerData" "Associative Table")

/-- `Encounter` (mod.rs). -/
inductive EncounterR where
  | manual (startTime endTime : Nat) : EncounterR
  | raid (startTime endTime : Nat) (encounterName : String)
      (encounterId : Nat) (success : Bool)
      (difficultyId groupSize : Nat) : EncounterR
  | dungeon (startTime endTime : Nat) (success : Bool)
      (mapId groupSize : Nat) : EncounterR
deriving DecidableEq

/-- `TryFrom<Value> for Encounter` (mod.rs): dispatch on the string value
of the removed `kind` key; `"manual"`, `"mythicplus"`, `"raid"` build the
respective variants, any other string hits `unreachable!()`, a present
non-string `kind` is `BadType`, a missing `kind` is `MissingKey`. -/
def tryEncounter {F : Type} : PValue F → MRes EncounterR
  | .table (.named m) =>
    match removeAssoc m "kind" with
    | (none, _) => .err (.missingKey "Encounter" "kind")
    | (some (.str s), m1) =>
      if s = "manual" then
        (requiredKey "Manual" "startTime" tryU64 m1).bind fun p1 =>
        (requiredKey "Manual" "endTime" tryU64 p1.2).bind fun p2 =>
        .ok (.manual p1.1 p2.1)
      else if s = "mythicplus" then
        (requiredKey "Dungeon" "startTime" tryU64 m1).bind fun p1 =>
        (requiredKey "Dungeon" "endTime" tryU64 p1.2).bind fun p2 =>
        (requiredKey "Dungeon" "success" tryBool p2.2).bind fun p3 =>
        (requiredKey "Dungeon" "mapId" tryU64 p3.2).bind fun p4 =>
        (requiredKey "Dungeon" "groupSize" tryU64 p4.2).bind fun p5 =>
        .ok (.dungeon p1.1 p2.1 p3.1 p4.1 p5.1)
      else if s = "raid" then
        (requiredKey "Raid" "startTime" tryU64 m1).bind fun p1 =>
        (requiredKey "Raid" "endTime" tryU64 p1.2).bind fun p2 =>
        (requiredKey "Raid" "encounterName" tryStr p2.2).bind fun p3 =>
        (requiredKey "Raid" "encounterId" tryU64 p3.2).bind fun p4 =>
        (requiredKey "Raid" "success" tryBool p4.2).bind fun p5 =>
        (requiredKey "Raid" "difficultyId" tryU64 p5.2).bind fun p6 =>
        (requiredKey "Raid" "groupSize" tryU64 p6.2).bind fun p7 =>
        .ok (.raid p1.1 p2.1 p3.1 p4.1 p5.1 p6.1 p7.1)
      else .panic
    | (some _, _) =>
      .err (.badType "EncounterType" "manual, mythicplus, or raid")
  | _ => .err (.badType "Encounter" "Associative Table")

/-- `ParsedRecording` (mod.rs). -/
structure ParsedRecordingR (F : Type) where
  scripts : List (String × TrackerDataR F)
  onUpdateDelay : TrackerDataR F
deriving DecidableEq

/-- The entrywise `TrackerData` conversion of the `scripts` map. -/
def scriptsConv {F : Type} (ops : FloatOps F) :
    List (String × PValue F) → MRes (List (String × TrackerDataR F))
  | [] => .ok []
  | (k, v) :: rest =>
    (tryTrackerData ops v).bind fun td =>
    (scriptsConv ops rest).bind fun xs => .ok ((k, td) :: xs)

/-- The shape dispatch of `parse_compressed_recording` after the binary
decode succeeds (mod.rs): the literal evaluates `onUpdateDelay` first,
then `scripts`; a non-Named top-level value and a present non-Named
`scripts` value are both `unimplemented!()`. -/
def parseCompressedDispatch {F : Type} (ops : FloatOps F) :
    PValue F → MRes (ParsedRecordingR F)
  | .table (.named m) =>
    match removeAssoc m "onUpdateDelay" with
    | (none, _) => .err (.missingKey "Recording" "onUpdateDelay")
    | (some u, m1) =>
      (tryTrackerData ops u).bind fun onUpd =>
      match removeAssoc m1 "scripts" with
      | (none, _) => .err (.missingKey "Recording" "scripts")
      | (some (.table (.named sm)), _) =>
        (scriptsConv ops sm).bind fun scripts => .ok ⟨scripts, onUpd⟩
      | (some _, _) => .panic
  | _ => .panic


/-- Claim C4 (code bug): when the removed `kind` key is a string outside
{"manual", "mythicplus", "raid"}, `Encounter::try_from` hits
`unreachable!()` and panics instead of returning the `BadType` error the
spec prescribes (the `BadType` arm is reserved for a present non-string
`kind`); each accepted string selects the Manual, Dungeon, or Raid
variant respectively. -/
theorem encounter_kind_dispatch (F : Type) :
    (∀ (m m1 : List (String × PValue F)) (s : String),
      removeAssoc m "kind" = (some (.str s), m1) →
      s ≠ "manual" → s ≠ "mythicplus" → s ≠ "raid" →
      tryEncounter (.table (.named m)) = .panic) ∧
    tryEncounter (.table (.named [("kind", PValue.str (F := F) "arena")])) = .panic ∧
    tryEncounter (.table (.named [("kind", PValue.str (F := F) "manual"),
        ("startTime", .int 1), ("endTime", .int 2)])) =
      .ok (.manual 1 2) ∧
    tryEncounter (.table (.named [("kind", PValue.str (F := F) "mythicplus"),
        ("startTime", .int 1), ("endTime", .int 2), ("success", .bool true),
        ("mapId", .int 3), ("groupSize", .int 5)])) =
      .ok (.dungeon 1 2 true 3 5) ∧
    tryEncounter (.table (.named [("kind", PValue.str (F := F) "raid"),
        ("startTime", .int 1), ("endTime", .int 2),
        ("encounterName", .str "boss"), ("encounterId", .int 7),
        ("success", .bool false), ("difficultyId", .int 9),
        ("groupSize", .int 20)])) =
      .ok (.raid 1 2 "boss" 7 false 9 20) := by
  refine ⟨?_, rfl, rfl, rfl, rfl⟩
  intro m m1 s hrem h1 h2 h3
  simp only [tryEncounter, hrem, h1, h2, h3, if_false]

/-- Witness for C4 at the failing input `{kind: "arena"}`. -/
theorem encounter_kind_dispatch_witness :
    tryEncounter (.table (.named [("kind", PValue.str (F := Nat) "arena")])) =
      .panic :=
  (encounter_kind_dispatch Nat).1 [("kind", PValue.str "arena")] []
    "arena" rfl (by decide) (by decide) (by decide)

/-- Claim C10: after a successful binary decode,
`parse_compressed_recording` panics via `unimplemented!()` — rather than
returning a `SavedVariablesError` — when the top-level value is not a
Named table, and when the `scripts` field is present but not a Named
table (reached once `onUpdateDelay` has converted successfully); no
`BadType` error is produced for these two shapes. -/
theorem parse_compressed_dispatch_panics (F : Type) (ops : FloatOps F) :
    (∀ v : PValue F, (∀ m, v ≠ .table (.named m)) →
      parseCompressedDispatch ops v = .panic) ∧
    (∀ (m m1 m2 : List (String × PValue F)) (u : PValue F)
        (td : TrackerDataR F) (sv : PValue F),
      removeAssoc m "onUpdateDelay" = (some u, m1) →
      tryTrackerData ops u = .ok td →
      removeAssoc m1 "scripts" = (some sv, m2) →
      (∀ sm, sv ≠ .table (.named sm)) →
      parseCompressedDispatch ops (.table (.named m)) = .panic) := by
  constructor
  · intro v hv
    match v with
    | .nil | .bool _ | .int _ | .float _ | .str _ => rfl
    | .table .empty | .table (.array _) | .table (.mixed _ _) => rfl
    | .table (.named m) => exact absurd rfl (hv m)
  · intro m m1 m2 u td sv h1 h2 h3 h4
    match sv, h3, h4 with
    | .nil, h3, _ | .bool _, h3, _ | .int _, h3, _ | .float _, h3, _
    | .str _, h3, _ | .table .empty, h3, _ | .table (.array _), h3, _
    | .table (.mixed _ _), h3, _ =>
      simp only [parseCompressedDispatch, h1, h2, MRes.bind, h3]
    | .table (.named sm), _, h4 => exact absurd rfl (h4 sm)

/-- Witness for C10: a non-table top level, and a map whose
`onUpdateDelay` converts but whose `scripts` is an `Int`. -/
theorem parse_compressed_dispatch_panics_witness :
    parseCompressedDispatch natFloatOps (.int 5) = .panic ∧
    parseCompressedDispatch natFloatOps (.table (.named
      [("onUpdateDelay", .table (.named
          [("stats", .table (.named [("mean", .int 1),
              ("samples", .table .empty)])),
           ("calls", .int 1), ("commits", .int 2),
           ("total_time", .int 3), ("top5", .table .empty)])),
       ("scripts", PValue.int (F := Nat) 0)])) = .panic := by
  have h := parse_compressed_dispatch_panics Nat natFloatOps
  refine ⟨h.1 (.int 5) (fun m hm => PValue.noConfusion hm), ?_⟩
  refine h.2 _ _ _ _
    ⟨⟨natFloatOps.ofInt 1, none, none, []⟩, 1, 2, none, natFloatOps.ofInt 3, []⟩
    (PValue.int 0) rfl rfl rfl (fun sm hsm => PValue.noConfusion hsm)


/-! ## Serde dispatch model (C6) — crates/serde-savedvariables `ValueDeserializer`

`deserialize_any` of `ValueDeserializer` hands a `FloatArray` to
`visit_seq` as a `SeqDeserializer` over bare `f64` items, so each element
is consumed through serde's `F64Deserializer`, which forwards every
method — including `deserialize_option` and `deserialize_newtype_struct`
— to `visit_f64`.  An `Array` of `Float` values hands the elements to
`visit_seq` as `ValueDeserializer`s, which treat `deserialize_option`
specially (`Nil ↦ visit_none`, otherwise `visit_some`).  The model below
captures this dispatch for the target-type universe the schema's float
sequences live in: `f64`, `Option<_>` and `Vec<_>`. -/

/-- Target types for the serde dispatch model. -/
inductive Ty where
  | f64Ty : Ty
  | optTy (t : Ty) : Ty
  | vecTy (t : Ty) : Ty
deriving DecidableEq

/-- Rust-side interpretation of a target type. -/
def Ty.interp (F : Type) : Ty → Type
  | .f64Ty => F
  | .optTy t => Option (interp F t)
  | .vecTy t => List (interp F t)

instance {F : Type} [DecidableEq F] : (t : Ty) → DecidableEq (Ty.interp F t)
  | .f64Ty => inferInstanceAs (DecidableEq F)
  | .optTy t =>
    have := instDecidableEqInterp (F := F) t
    inferInstanceAs (DecidableEq (Option (Ty.interp F t)))
  | .vecTy t =>
    have := instDecidableEqInterp (F := F) t
    inferInstanceAs (DecidableEq (List (Ty.interp F t)))

/-- Deserialization errors of the dispatch model: serde's
`invalid_type` (tagged with the visitor's expectation) and the
`ParseError::MixedTable` of `deserialize_any`. -/
inductive SErr where
  | invalidType (expected : String) : SErr
  | mixedTable : SErr
deriving DecidableEq

/-- The two element deserializers reachable from a decoded `Value` tree:
`ValueDeserializer` and serde's `F64Deserializer` (produced by
`SeqDeserializer::new(vec.into_iter())` over a `FloatArray`). -/
inductive SDeser (F : Type) where
  | vd (v : Value F) : SDeser F
  | fd (x : F) : SDeser F

/-- Elementwise traversal of a sequence by the `Vec` visitor
(`next_element` until exhaustion, short-circuiting on error). -/
def mapME {α β : Type} (f : α → Except SErr β) : List α → Except SErr (List β)
  | [] => .ok []
  | a :: rest =>
    (f a).bind fun b => (mapME f rest).bind fun bs => .ok (b :: bs)

/-- Serde deserialization of a target type from either deserializer:
`fd` forwards everything to `visit_f64`; `vd` treats `deserialize_option`
specially and forwards the rest to `deserialize_any` (whose visitor
dispatch follows `ValueDeserializer::deserialize_any`); the `f64` visitor
accepts floats and widens integers, the `Option` visitor accepts
`none`/`some`, the `Vec` visitor accepts sequences. -/
def deser {F : Type} (ops : FloatOps F) : (t : Ty) → SDeser F → Except SErr (t.interp F)
  | .f64Ty, .fd x => .ok x
  | .f64Ty, .vd v =>
    match v with
    | .float x => .ok x
    | .int n => .ok (ops.ofInt n)
    | .table (.mixed _ _) => .error .mixedTable
    | _ => .error (.invalidType "f64")
  | .optTy _, .fd _ => .error (.invalidType "option")
  | .optTy t, .vd v =>
    match v with
    | .nil => .ok none
    | v => (deser ops t (.vd v)).map some
  | .vecTy _, .fd _ => .error (.invalidType "a sequence")
  | .vecTy t, .vd v =>
    match v with
    | .table .empty => .ok []
    | .table (.array vs) => mapME (deser ops t) (vs.map SDeser.vd)
    | .table (.floatArray xs) => mapME (deser ops t) (xs.map SDeser.fd)
    | .table (.mixed _ _) => .error .mixedTable
    | _ => .error (.invalidType "a sequence")

/-- A target type whose sequence elements are not consumed through
`deserialize_option`: `Option` may appear only outside the element
position (an `Option` element head is what distinguishes the two
deserializers). -/
def goodTy : Ty → Bool
  | .f64Ty => true
  | .optTy t => goodTy t
  | .vecTy (.optTy _) => false
  | .vecTy _ => true

/-- A type that is not an `Option` at its head. -/
def headNotOpt : Ty → Prop
  | .optTy _ => False
  | _ => True

theorem deser_elem_agree {F : Type} (ops : FloatOps F) :
    ∀ (u : Ty), headNotOpt u →
      ∀ x : F, deser ops u (.fd x) = deser ops u (.vd (.float x))
  | .f64Ty, _, _ => rfl
  | .vecTy _, _, _ => rfl

theorem mapME_congr {α β : Type} {f g : α → Except SErr β}
    (h : ∀ a, f a = g a) : ∀ l, mapME f l = mapME g l := by
  intro l
  induction l with
  | nil => rfl
  | cons a rest ih => simp only [mapME, h a, ih]

theorem mapME_map {α β γ : Type} (f : β → Except SErr γ) (g : α → β) :
    ∀ l, mapME f (l.map g) = mapME (fun a => f (g a)) l := by
  intro l
  induction l with
  | nil => rfl
  | cons a rest ih => simp only [List.map_cons, mapME, ih]

/-- Claim C6 (amended): for every target type in which `Option` does not
occur at sequence-element head, deserializing `FloatArray(xs)` and
`Array(xs.map(Float))` through the schema mapper gives the same result —
the restriction is forced because primitive element deserializers forward
`deserialize_option` to `visit_f64` (see the counterexample). -/
theorem floatarray_array_equiv (F : Type) (ops : FloatOps F) :
    ∀ (t : Ty), goodTy t = true → ∀ xs : List F,
      deser ops t (.vd (.table (.floatArray xs))) =
        deser ops t (.vd (.table (.array (xs.map Value.float)))) := by
  intro t
  induction t with
  | f64Ty => intro _ xs; rfl
  | optTy u ih =>
    intro hg xs
    simp only [deser]
    rw [ih (by simpa [goodTy] using hg) xs]
  | vecTy u ih =>
    intro hg xs
    have hu : headNotOpt u := by
      cases u with
      | f64Ty => trivial
      | vecTy t => trivial
      | optTy t => simp [goodTy] at hg
    simp only [deser, mapME_map]
    exact mapME_congr (fun x => deser_elem_agree ops u hu x) xs

/-- Witness for the amended C6 at `t = Vec<f64>`. -/
theorem floatarray_array_equiv_witness :
    deser natFloatOps (.vecTy .f64Ty) (.vd (.table (.floatArray [3, 4]))) =
      deser natFloatOps (.vecTy .f64Ty)
        (.vd (.table (.array ([3, 4].map Value.float)))) :=
  floatarray_array_equiv Nat natFloatOps (.vecTy .f64Ty) rfl [3, 4]

/-- Counterexample to C6 as stated: with the element type
`Option<f64>` (an `Option` target type combined with the schema's `Vec`),
`FloatArray([x])` fails with `invalid_type` — `F64Deserializer` forwards
`deserialize_option` to `visit_f64` on the `Option` visitor — while
`Array([Float(x)])` succeeds with `[Some(x)]`; the two runs of the schema
mapper therefore differ. -/
theorem floatarray_option_elem_counterexample :
    deser natFloatOps (.vecTy (.optTy .f64Ty))
        (.vd (.table (.floatArray [0]))) =
      .error (.invalidType "option") ∧
    deser natFloatOps (.vecTy (.optTy .f64Ty))
        (.vd (.table (.array ([0].map Value.float)))) =
      .ok ([some 0] : List (Option Nat)) ∧
    deser natFloatOps (.vecTy (.optTy .f64Ty))
        (.vd (.table (.floatArray [0]))) ≠
      deser natFloatOps (.vecTy (.optTy .f64Ty))
        (.vd (.table (.array ([0].map Value.float)))) := by
  refine ⟨rfl, rfl, ?_⟩
  intro h
  exact Except.noConfusion h


/-! ## Text parser — port of the saved-variables grammar in
crates/serde-savedvariables/src/lib.rs

The nom parsers run over `&str`; the embedding runs over `List Char`.
`nom::character::complete::i64` parses an optional sign and one or more
digits with a checked (overflowing fails) accumulation;
`nom::number::complete::double` recognizes
`sign? digits ('.' digits?)? | sign? '.' digits`, with an optional
well-formed exponent, and converts the recognized literal (the
conversion is total on recognized literals, abstracted as
`FloatOps.ofLit`). -/

/-- Result of a text parser: `err` is nom's recoverable error (this
grammar uses no `cut`), `panic` models the `unreachable!` in
`table_string_key`. -/
inductive TRes (α : Type) where
  | ok (rest : List Char) (a : α) : TRes α
  | err : TRes α
  | panic : TRes α
  | nofuel : TRes α

/-- A text parser. -/
def TParser (α : Type) : Type := List Char → TRes α

/-- nom's `alt` for two text branches. -/
def talt {α : Type} (p q : TParser α) : TParser α :=
  fun i =>
    match p i with
    | .ok rest a => .ok rest a
    | .err => q i
    | .panic => .panic
    | .nofuel => .nofuel

/-- nom's `map` for text parsers. -/
def tmap {α β : Type} (p : TParser α) (f : α → β) : TParser β :=
  fun i =>
    match p i with
    | .ok rest a => .ok rest (f a)
    | .err => .err
    | .panic => .panic
    | .nofuel => .nofuel

/-- `tag`: match a literal prefix. -/
def tagP (lit : List Char) : TParser (List Char) :=
  fun i => if lit.isPrefixOf i then .ok (i.drop lit.length) lit else .err

/-- `nil`. -/
def nilP {F : Type} : TParser (Value F) :=
  tmap (tagP ['n', 'i', 'l']) (fun _ => Value.nil)

/-- `boolean`. -/
def booleanP {F : Type} : TParser (Value F) :=
  talt (tmap (tagP ['t', 'r', 'u', 'e']) (fun _ => Value.bool true))
    (tmap (tagP ['f', 'a', 'l', 's', 'e']) (fun _ => Value.bool false))

/-- Value of a digit string. -/
def digitsVal (ds : List Char) : Nat :=
  ds.foldl (fun acc c => acc * 10 + (c.toNat - 48)) 0

/-- The optional leading sign of a numeric literal: `(negative?, rest)`. -/
def splitSign : List Char → Bool × List Char
  | [] => (false, [])
  | c :: r => if c = '+' then (false, r) else if c = '-' then (true, r) else (false, c :: r)

/-- `nom::character::complete::i64`: optional sign, one or more digits,
failing on an empty digit run or on overflow of the `i64` range. -/
def parseI64 : TParser Int := fun i =>
  let sgn := splitSign i
  let ds := sgn.2.takeWhile Char.isDigit
  let rest := sgn.2.drop ds.length
  if ds = [] then .err
  else if sgn.1 then
    if digitsVal ds ≤ 2 ^ 63 then .ok rest (-(digitsVal ds : Int)) else .err
  else
    if digitsVal ds ≤ 2 ^ 63 - 1 then .ok rest ((digitsVal ds : Int)) else .err

/-- `int`: `terminated(parse_i64, not(tag(".")))`. -/
def intP {F : Type} : TParser (Value F) := fun i =>
  match parseI64 i with
  | .ok rest n =>
    match rest with
    | '.' :: _ => .err
    | _ => .ok rest (.int n)
  | .err => .err
  | .panic => .panic
  | .nofuel => .nofuel

/-- The recognizer of `double`: returns the remaining input after the
recognized float literal, or `none`. -/
def recognizeFloat (i : List Char) : Option (List Char) :=
  let sgn := splitSign i
  let ds := sgn.2.takeWhile Char.isDigit
  let i2 := sgn.2.drop ds.length
  let afterMantissa : Option (List Char) :=
    match i2 with
    | '.' :: i3 =>
      let fs := i3.takeWhile Char.isDigit
      if ds = [] ∧ fs = [] then none else some (i3.drop fs.length)
    | _ => if ds = [] then none else some i2
  match afterMantissa with
  | none => none
  | some i4 =>
    match i4 with
    | e :: i5 =>
      if e = 'e' ∨ e = 'E' then
        let esgn := splitSign i5
        let xs := esgn.2.takeWhile Char.isDigit
        if xs = [] then some i4 else some (esgn.2.drop xs.length)
      else some i4
    | [] => some i4

/-- `float`: `map(double, Value::Float)`. -/
def floatTextP {F : Type} (ops : FloatOps F) : TParser (Value F) := fun i =>
  match recognizeFloat i with
  | none => .err
  | some rest => .ok rest (.float (ops.ofLit (String.mk (i.take (i.length - rest.length)))))

/-- nom's `escaped(none_of(q), '\\', one_of(q))`: since `none_of(q)`
also consumes a backslash, the control branch is dead and the combinator
consumes the maximal run of non-`q` characters, failing only when it
stops at `q` having consumed nothing. -/
def escapedNoneOf (q : Char) : TParser (List Char) := fun i =>
  let run := i.takeWhile (fun c => c ≠ q)
  match run, i with
  | [], [] => .ok [] []
  | [], _ :: _ => .err
  | run, _ => .ok (i.drop run.length) run

/-- A string delimited by `q` (`string_double` / `string_single`). -/
def stringLitP {F : Type} (q : Char) : TParser (Value F) := fun i =>
  match i with
  | c :: i1 =>
    if c = q then
      match escapedNoneOf q i1 with
      | .ok i2 content =>
        (match i2 with
         | d :: i3 => if d = q then .ok i3 (.str (String.mk content)) else .err
         | [] => .err)
      | _ => .err
    else .err
  | [] => .err

/-- The single-quote character. -/
def singleQuote : Char := Char.ofNat 39

/-- Rust `multispace1`-accepted characters. -/
def isSpaceRust (c : Char) : Bool :=
  c = ' ' ∨ c = Char.ofNat 9 ∨ c = Char.ofNat 13 ∨ c = Char.ofNat 10

/-- `comment`: `--` to end of line (or end of input). -/
def commentP : TParser (List Char) := fun i =>
  match i with
  | '-' :: '-' :: i1 =>
    let body := i1.takeWhile (fun c => c ≠ Char.ofNat 13 ∧ c ≠ Char.ofNat 10)
    let i2 := i1.drop body.length
    (match i2 with
     | [] => .ok [] body
     | c :: i3 =>
       if c = Char.ofNat 10 then .ok i3 body
       else
         match i2 with
         | a :: b :: i4 =>
           if a = Char.ofNat 13 ∧ b = Char.ofNat 10 then .ok i4 body else .err
         | _ => .err)
  | _ => .err

/-- One `fold_many0` step of `spacing`: whitespace run or comment. -/
def spacingStep (i : List Char) : Option (List Char) :=
  let run := i.takeWhile isSpaceRust
  if run ≠ [] then some (i.drop run.length)
  else
    match commentP i with
    | .ok rest _ => some rest
    | _ => none

/-- `spacing`: `fold_many0(alt((multispace1, comment)))`; every step
consumes at least one character, so fuel equal to the input length is
enough. -/
def spacingGo : Nat → List Char → List Char
  | 0, i => i
  | fuel + 1, i =>
    match spacingStep i with
    | some i2 => spacingGo fuel i2
    | none => i

/-- `spacing` applied at a position. -/
def spacing (i : List Char) : List Char := spacingGo i.length i

/-- `ws(tag([c]))`: leading spacing, one expected character, trailing
spacing. -/
def wsTagP (c : Char) : TParser Unit := fun i =>
  let i1 := spacing i
  match i1 with
  | d :: i2 => if d = c then .ok (spacing i2) () else .err
  | [] => .err

/-- `table_empty`. -/
def tableEmptyP {F : Type} : TParser (TableV F) := fun i =>
  match i with
  | '{' :: i1 =>
    (match spacing i1 with
     | '}' :: i2 => .ok i2 .empty
     | _ => .err)
  | _ => .err

/-- `identifier`: a nonempty run of alphanumeric or underscore
characters (Rust's `char::is_alphanumeric`; ASCII here). -/
def identifierP : TParser String := fun i =>
  let run := i.takeWhile (fun c => c.isAlphanum ∨ c = '_')
  if run = [] then .err else .ok (i.drop run.length) (String.mk run)

/-- `table_string_key`: `[` quoted-string `]`; the `unreachable!` arm
(for a non-string result of a string parser) is the `panic` case. -/
def tableStringKeyP {F : Type} : TParser String := fun i =>
  match i with
  | '[' :: i1 =>
    (match talt (stringLitP (F := F) singleQuote) (stringLitP '"') i1 with
     | .ok i2 v =>
       (match i2 with
        | ']' :: i3 =>
          (match v with
           | .str s => .ok i3 s
           | _ => .panic)
        | _ => .err)
     | .err => .err
     | .panic => .panic
     | .nofuel => .nofuel)
  | _ => .err

mutual

/-- `value`: the seven-way `alt`, recursion through tables bounded by
fuel. -/
def valueT {F : Type} (ops : FloatOps F) : Nat → TParser (Value F)
  | 0 => fun _ => .nofuel
  | fuel + 1 =>
    talt nilP
      (talt booleanP
        (talt intP
          (talt (floatTextP ops)
            (talt (stringLitP '"')
              (talt (stringLitP singleQuote) (tableT ops fuel))))))

/-- `table`: `map(alt((table_empty, table_array, table_named)),
Value::Table)`. -/
def tableT {F : Type} (ops : FloatOps F) : Nat → TParser (Value F)
  | 0 => fun _ => .nofuel
  | fuel + 1 =>
    tmap (talt tableEmptyP (talt (tableArrayT ops fuel) (tableNamedT ops fuel)))
      Value.table

/-- `table_array`. -/
def tableArrayT {F : Type} (ops : FloatOps F) : Nat → TParser (TableV F)
  | 0 => fun _ => .nofuel
  | fuel + 1 => fun i =>
    match wsTagP '{' i with
    | .ok i1 _ =>
      (match valueT ops fuel i1 with
       | .ok i2 a =>
         (match sepLoopValue ops fuel [a] i2 with
          | .ok i3 xs =>
            let i4 := match wsTagP ',' i3 with
              | .ok i5 _ => i5
              | _ => i3
            (match wsTagP '}' i4 with
             | .ok i6 _ => .ok i6 (.array xs)
             | .err => .err
             | .panic => .panic
             | .nofuel => .nofuel)
          | .err => .err
          | .panic => .panic
          | .nofuel => .nofuel)
       | .err => .err
       | .panic => .panic
       | .nofuel => .nofuel)
    | .err => .err
    | .panic => .panic
    | .nofuel => .nofuel

/-- The continuation loop of `separated_list1(ws(tag(",")), value)`. -/
def sepLoopValue {F : Type} (ops : FloatOps F) :
    Nat → List (Value F) → TParser (List (Value F))
  | 0, _ => fun _ => .nofuel
  | fuel + 1, acc => fun i =>
    match wsTagP ',' i with
    | .ok i1 _ =>
      (match valueT ops fuel i1 with
       | .ok i2 a => sepLoopValue ops fuel (acc ++ [a]) i2
       | .err => .ok i acc
       | .panic => .panic
       | .nofuel => .nofuel)
    | .err => .ok i acc
    | .panic => .panic
    | .nofuel => .nofuel

/-- `named_pair`: key (bracketed string or identifier), `ws("=")`,
value. -/
def namedPairT {F : Type} (ops : FloatOps F) : Nat → TParser (String × Value F)
  | 0 => fun _ => .nofuel
  | fuel + 1 => fun i =>
    match talt (tableStringKeyP (F := F)) identifierP i with
    | .ok i1 k =>
      (match wsTagP '=' i1 with
       | .ok i2 _ =>
         (match valueT ops fuel i2 with
          | .ok i3 v => .ok i3 (k, v)
          | .err => .err
          | .panic => .panic
          | .nofuel => .nofuel)
       | .err => .err
       | .panic => .panic
       | .nofuel => .nofuel)
    | .err => .err
    | .panic => .panic
    | .nofuel => .nofuel

/-- The continuation loop of `separated_list1(ws(tag(",")),
named_pair)`. -/
def sepLoopPair {F : Type} (ops : FloatOps F) :
    Nat → List (String × Value F) → TParser (List (String × Value F))
  | 0, _ => fun _ => .nofuel
  | fuel + 1, acc => fun i =>
    match wsTagP ',' i with
    | .ok i1 _ =>
      (match namedPairT ops fuel i1 with
       | .ok i2 a => sepLoopPair ops fuel (acc ++ [a]) i2
       | .err => .ok i acc
       | .panic => .panic
       | .nofuel => .nofuel)
    | .err => .ok i acc
    | .panic => .panic
    | .nofuel => .nofuel

/-- `table_named`: entries collected into a hash map (`insert`
semantics). -/
def tableNamedT {F : Type} (ops : FloatOps F) : Nat → TParser (TableV F)
  | 0 => fun _ => .nofuel
  | fuel + 1 => fun i =>
    match wsTagP '{' i with
    | .ok i1 _ =>
      (match namedPairT ops fuel i1 with
       | .ok i2 a =>
         (match sepLoopPair ops fuel [a] i2 with
          | .ok i3 entries =>
            let i4 := match wsTagP ',' i3 with
              | .ok i5 _ => i5
              | _ => i3
            (match wsTagP '}' i4 with
             | .ok i6 _ =>
               .ok i6 (.named (entries.foldl
                 (fun m p => insertAssoc m p.1 p.2) []))
             | .err => .err
             | .panic => .panic
             | .nofuel => .nofuel)
          | .err => .err
          | .panic => .panic
          | .nofuel => .nofuel)
       | .err => .err
       | .panic => .panic
       | .nofuel => .nofuel)
    | .err => .err
    | .panic => .panic
    | .nofuel => .nofuel

end


/-! ## C8 — the Int/Float decision of the text parser -/

theorem talt_ok_cases {α : Type} {p q : TParser α} {i rest : List Char} {a : α}
    (h : talt p q i = .ok rest a) :
    p i = .ok rest a ∨ (p i = .err ∧ q i = .ok rest a) := by
  unfold talt at h
  split at h
  · next r2 a2 heq =>
    simp only [TRes.ok.injEq] at h
    exact .inl (h.1 ▸ h.2 ▸ heq)
  · next heq => exact .inr ⟨heq, h⟩
  all_goals simp at h

theorem nilP_ok {F : Type} {i rest : List Char} {v : Value F}
    (h : nilP i = .ok rest v) : v = .nil := by
  unfold nilP tmap at h
  split at h
  · simp only [TRes.ok.injEq] at h
    exact h.2.symm
  all_goals simp at h

theorem booleanP_ok {F : Type} {i rest : List Char} {v : Value F}
    (h : booleanP i = .ok rest v) : ∃ b, v = .bool b := by
  unfold booleanP at h
  rcases talt_ok_cases h with h1 | ⟨-, h1⟩ <;>
  · unfold tmap at h1
    split at h1
    · simp only [TRes.ok.injEq] at h1
      exact ⟨_, h1.2.symm⟩
    all_goals simp at h1

theorem floatTextP_ok {F : Type} {ops : FloatOps F} {i rest : List Char}
    {v : Value F} (h : floatTextP ops i = .ok rest v) : ∃ f, v = .float f := by
  unfold floatTextP at h
  split at h
  · simp at h
  · simp only [TRes.ok.injEq] at h
    exact ⟨_, h.2.symm⟩

theorem stringLitP_ok {F : Type} {q : Char} {i rest : List Char} {v : Value F}
    (h : stringLitP q i = .ok rest v) : ∃ s, v = .str s := by
  unfold stringLitP at h
  split at h
  · split at h
    · split at h
      · split at h
        · split at h
          · simp only [TRes.ok.injEq] at h
            exact ⟨_, h.2.symm⟩
          · simp at h
        · simp at h
      all_goals simp at h
    · simp at h
  · simp at h

theorem tableT_ok {F : Type} {ops : FloatOps F} {fuel : Nat}
    {i rest : List Char} {v : Value F}
    (h : tableT ops fuel i = .ok rest v) : ∃ t, v = .table t := by
  match fuel with
  | 0 => simp [tableT] at h
  | fuel + 1 =>
    unfold tableT tmap at h
    split at h
    · simp only [TRes.ok.injEq] at h
      exact ⟨_, h.2.symm⟩
    all_goals simp at h

theorem drop_length_takeWhile (p : Char → Bool) :
    ∀ l : List Char, l.drop (l.takeWhile p).length = l.dropWhile p := by
  intro l
  induction l with
  | nil => rfl
  | cons c rest ih =>
    by_cases hc : p c
    · simp [List.takeWhile_cons, List.dropWhile_cons, hc, ih]
    · simp [List.takeWhile_cons, List.dropWhile_cons, hc]

theorem mem_takeWhile (p : Char → Bool) :
    ∀ (l : List Char) (c : Char), c ∈ l.takeWhile p → p c = true := by
  intro l
  induction l with
  | nil => intro c hc; simp at hc
  | cons d rest ih =>
    intro c hc
    rw [List.takeWhile_cons] at hc
    by_cases hd : p d
    · simp only [hd, if_true] at hc
      rcases List.mem_cons.mp hc with rfl | hc
      · exact hd
      · exact ih c hc
    · simp [hd] at hc

theorem intP_ok_consumed {F : Type} {i rest : List Char} {v : Value F}
    (h : intP i = .ok rest v) :
    (∃ n, v = .int n) ∧ ∃ pre, i = pre ++ rest ∧ ∀ c ∈ pre, c ≠ '.' := by
  unfold intP at h
  split at h
  · next rest2 n heq =>
    split at h
    · simp at h
    · simp only [TRes.ok.injEq] at h
      obtain ⟨rfl, rfl⟩ := h
      refine ⟨⟨n, rfl⟩, ?_⟩
      unfold parseI64 at heq
      dsimp only at heq
      split at heq
      · simp at heq
      · -- signPre decomposition
        have hsplit : ∃ signPre, i = signPre ++ (splitSign i).2 ∧
            ∀ c ∈ signPre, c = '+' ∨ c = '-' := by
          match i with
          | [] => exact ⟨[], by simp [splitSign], by simp⟩
          | c :: r =>
            by_cases hplus : c = '+'
            · subst hplus
              exact ⟨['+'], by simp [splitSign], by simp⟩
            · by_cases hminus : c = '-'
              · subst hminus
                exact ⟨['-'], by simp [splitSign], by simp⟩
              · exact ⟨[], by simp [splitSign, hplus, hminus], by simp⟩
        obtain ⟨signPre, hse, hsc⟩ := hsplit
        have hjoin : List.takeWhile Char.isDigit (splitSign i).2 ++
            (splitSign i).2.drop
              (List.takeWhile Char.isDigit (splitSign i).2).length =
            (splitSign i).2 := by
          rw [drop_length_takeWhile]
          exact List.takeWhile_append_dropWhile _ _
        have hgoal : ∀ r2 : List Char,
            (splitSign i).2.drop
              (List.takeWhile Char.isDigit (splitSign i).2).length = r2 →
            ∃ pre, i = pre ++ r2 ∧ ∀ c ∈ pre, c ≠ '.' := by
          intro r2 hrest
          refine ⟨signPre ++ List.takeWhile Char.isDigit (splitSign i).2, ?_, ?_⟩
          · rw [List.append_assoc, ← hrest, hjoin, ← hse]
          · intro c hc
            rcases List.mem_append.mp hc with hcs | hcd
            · rcases hsc c hcs with rfl | rfl <;> decide
            · have hd := mem_takeWhile _ _ c hcd
              intro hdot
              rw [hdot] at hd
              simp at hd
        split at heq <;> split at heq
        all_goals first
          | (simp only [TRes.ok.injEq] at heq
             exact hgoal rest2 heq.1)
          | simp at heq
  all_goals simp at h


theorem nilP_digit_err {F : Type} {d : Char} (hd : d.isDigit = true)
    (r : List Char) : nilP (F := F) (d :: r) = .err := by
  have hne : ('n' == d) = false := by
    cases hbe : ('n' == d)
    · rfl
    · have : 'n' = d := by simpa using hbe
      subst this
      exact absurd hd (by decide)
  simp [nilP, tmap, tagP, List.isPrefixOf, hne]

theorem booleanP_digit_err {F : Type} {d : Char} (hd : d.isDigit = true)
    (r : List Char) : booleanP (F := F) (d :: r) = .err := by
  have hnt : ('t' == d) = false := by
    cases hbe : ('t' == d)
    · rfl
    · have : 't' = d := by simpa using hbe
      subst this
      exact absurd hd (by decide)
  have hnf : ('f' == d) = false := by
    cases hbe : ('f' == d)
    · rfl
    · have : 'f' = d := by simpa using hbe
      subst this
      exact absurd hd (by decide)
  simp [booleanP, talt, tmap, tagP, List.isPrefixOf, hnt, hnf]

theorem takeWhile_append_sat (p : Char → Bool) :
    ∀ (l r : List Char), (∀ c ∈ l, p c = true) →
      (l ++ r).takeWhile p = l ++ r.takeWhile p := by
  intro l
  induction l with
  | nil => intro r _; simp
  | cons c t ih =>
    intro r hall
    rw [List.cons_append, List.takeWhile_cons, hall c (by simp), if_pos rfl,
      ih r (fun c hc => hall c (by simp [hc])), List.cons_append]

theorem takeWhile_head_fail (p : Char → Bool) (r : List Char)
    (h : ∀ c, r.head? = some c → p c = false) : r.takeWhile p = [] := by
  cases r with
  | nil => rfl
  | cons c t =>
    rw [List.takeWhile_cons, h c rfl]
    rfl

theorem intP_digits_ok {F : Type} (ds rest : List Char)
    (hne : ds ≠ []) (hdig : ∀ c ∈ ds, c.isDigit = true)
    (hrange : digitsVal ds ≤ 2 ^ 63 - 1)
    (hhead : ∀ c, rest.head? = some c → c.isDigit = false ∧ c ≠ '.') :
    intP (F := F) (ds ++ rest) = .ok rest (.int (digitsVal ds)) := by
  obtain ⟨d, ds2, rfl⟩ : ∃ d ds2, ds = d :: ds2 := by
    cases ds with
    | nil => exact absurd rfl hne
    | cons d ds2 => exact ⟨d, ds2, rfl⟩
  have hd := hdig d (by simp)
  have hsgn : splitSign ((d :: ds2) ++ rest) = (false, (d :: ds2) ++ rest) := by
    have hplus : d ≠ '+' := by
      intro hcontra
      subst hcontra
      exact absurd hd (by decide)
    have hminus : d ≠ '-' := by
      intro hcontra
      subst hcontra
      exact absurd hd (by decide)
    simp [splitSign, hplus, hminus]
  have htw : ((d :: ds2) ++ rest).takeWhile Char.isDigit = d :: ds2 := by
    rw [takeWhile_append_sat _ _ _ hdig,
      takeWhile_head_fail _ rest (fun c hc => (hhead c hc).1), List.append_nil]
  have hdrop : ((d :: ds2) ++ rest).drop (d :: ds2).length = rest :=
    List.drop_left _ _
  have hint : parseI64 ((d :: ds2) ++ rest) = .ok rest (digitsVal (d :: ds2)) := by
    unfold parseI64
    dsimp only
    rw [hsgn]
    dsimp only
    rw [htw, hdrop]
    simp
    omega
  unfold intP
  rw [hint]
  cases hres : rest with
  | nil => rfl
  | cons c t =>
    have := (hhead c (by rw [hres]; rfl)).2
    simp [this]

/-- Claim C8 (amended): an `Int` is produced by `value` only when the
consumed literal contains no decimal point, and a dot-free pure-digit
literal within the `i64` range does produce `Int`; the converse of the
original claim fails — a dot-free literal can become `Float` when the
checked `i64` parse fails on overflow (see the counterexample). -/
theorem text_numeric_tag (F : Type) (ops : FloatOps F) :
    (∀ (fuel : Nat) (i rest : List Char) (n : Int),
      valueT ops fuel i = .ok rest (.int n) →
      ∃ pre, i = pre ++ rest ∧ ∀ c ∈ pre, c ≠ '.') ∧
    (∀ (fuel : Nat) (ds rest : List Char),
      ds ≠ [] → (∀ c ∈ ds, c.isDigit = true) →
      digitsVal ds ≤ 2 ^ 63 - 1 →
      (∀ c, rest.head? = some c → c.isDigit = false ∧ c ≠ '.') →
      valueT ops (fuel + 1) (ds ++ rest) = .ok rest (.int (digitsVal ds))) := by
  constructor
  · intro fuel i rest n h
    match fuel with
    | 0 => simp [valueT] at h
    | fuel + 1 =>
      rw [valueT] at h
      rcases talt_ok_cases h with h1 | ⟨-, h⟩
      · exact Value.noConfusion (nilP_ok h1)
      rcases talt_ok_cases h with h1 | ⟨-, h⟩
      · obtain ⟨b, hb⟩ := booleanP_ok h1
        exact Value.noConfusion hb
      rcases talt_ok_cases h with h1 | ⟨-, h⟩
      · exact (intP_ok_consumed h1).2
      rcases talt_ok_cases h with h1 | ⟨-, h⟩
      · obtain ⟨f, hf⟩ := floatTextP_ok h1
        exact Value.noConfusion hf
      rcases talt_ok_cases h with h1 | ⟨-, h⟩
      · obtain ⟨s, hs⟩ := stringLitP_ok h1
        exact Value.noConfusion hs
      rcases talt_ok_cases h with h1 | ⟨-, h⟩
      · obtain ⟨s, hs⟩ := stringLitP_ok h1
        exact Value.noConfusion hs
      · obtain ⟨t, ht⟩ := tableT_ok h
        exact Value.noConfusion ht
  · intro fuel ds rest hne hdig hrange hhead
    obtain ⟨d, ds2, rfl⟩ : ∃ d ds2, ds = d :: ds2 := by
      cases ds with
      | nil => exact absurd rfl hne
      | cons d ds2 => exact ⟨d, ds2, rfl⟩
    have hd := hdig d (by simp)
    have hint := intP_digits_ok (F := F) (d :: ds2) rest hne hdig hrange hhead
    rw [List.cons_append] at hint
    rw [valueT, List.cons_append, talt, nilP_digit_err hd, talt,
      booleanP_digit_err hd, talt, hint]

/-- Witness for the amended C8: the literal "42" parses as `Int 42`, and
an `Int` result's consumed prefix has no decimal point. -/
theorem text_numeric_tag_witness :
    valueT natFloatOps 1 (['4', '2'] ++ []) = .ok [] (.int (digitsVal ['4', '2'])) ∧
    ∃ pre, ['4', '2'] = pre ++ ([] : List Char) ∧ ∀ c ∈ pre, c ≠ '.' := by
  have h := text_numeric_tag Nat natFloatOps
  refine ⟨h.2 0 ['4', '2'] [] (by decide) (by decide) (by decide)
    (fun c hc => by simp at hc), ?_⟩
  exact h.1 1 ['4', '2'] [] 42
    (h.2 0 ['4', '2'] [] (by decide) (by decide) (by decide)
      (fun c hc => by simp at hc))

/-- Counterexample to C8 as stated: the dot-free 20-digit literal
overflows the checked `i64` parse of `int`, falls through to `double`,
and is accepted as a `Float` even though it contains no decimal point. -/
theorem int_overflow_literal_float :
    (∃ f, valueT natFloatOps 1 (String.toList "99999999999999999999") =
      .ok [] (Value.float f)) ∧
    ∀ c ∈ String.toList "99999999999999999999", c ≠ '.' := by
  refine ⟨⟨natFloatOps.ofLit (String.mk (String.toList "99999999999999999999")), ?_⟩,
    by decide⟩
  rfl


end Profiling2
